import Mathlib

/-!
Verification of the Dynamic_Ensemble_Reasoning orchestrator against its
specification.  The Python sources under `der/` are shallowly embedded:

* JSON / Python values are modelled by `PyVal` (dicts are association lists
  in insertion order, `float`s are exact rationals, `bool` is kept separate
  from `int` but participates in the numeric checks exactly as Python's
  `isinstance(x, (int, float))` does);
* filesystem paths are modelled as lists of components of an absolute,
  `resolve()`d path (`PathA`); `Path.resolve` is modelled by `resolveStr`,
  which normalises `.`, `..` and empty components and makes relative
  strings absolute against a current working directory;
* the directory filesystem is a list of existing directory paths (`DirFS`),
  the file store a list of `(path, contents)` pairs (`FileFS`);
* Python `str.strip` / `str.lower` are modelled over ASCII whitespace and
  ASCII case (`pyStrip`, `pyLower`).
-/

inductive PyVal where
  | none : PyVal
  | bool : Bool → PyVal
  | int : ℤ → PyVal
  | float : ℚ → PyVal
  | str : String → PyVal
  | list : List PyVal → PyVal
  | dict : List (String × PyVal) → PyVal

mutual

def pyBeq : PyVal → PyVal → Bool
  | .none, .none => true
  | .bool a, .bool b => a == b
  | .int a, .int b => a == b
  | .float a, .float b => a == b
  | .str a, .str b => a == b
  | .list a, .list b => pyBeqList a b
  | .dict a, .dict b => pyBeqDict a b
  | _, _ => false

def pyBeqList : List PyVal → List PyVal → Bool
  | [], [] => true
  | a :: as, b :: bs => pyBeq a b && pyBeqList as bs
  | _, _ => false

def pyBeqDict : List (String × PyVal) → List (String × PyVal) → Bool
  | [], [] => true
  | (k1, v1) :: as, (k2, v2) :: bs => k1 == k2 && pyBeq v1 v2 && pyBeqDict as bs
  | _, _ => false

end

mutual

theorem pyBeq_eq : ∀ {a b : PyVal}, pyBeq a b = true → a = b
  | .none, .none, _ => rfl
  | .bool a, .bool b, h => by simp [pyBeq] at h; simp [h]
  | .int a, .int b, h => by simp [pyBeq] at h; simp [h]
  | .float a, .float b, h => by simp [pyBeq] at h; simp [h]
  | .str a, .str b, h => by simp [pyBeq] at h; simp [h]
  | .list a, .list b, h => by
      simp only [pyBeq] at h
      exact congrArg PyVal.list (pyBeqList_eq h)
  | .dict a, .dict b, h => by
      simp only [pyBeq] at h
      exact congrArg PyVal.dict (pyBeqDict_eq h)

theorem pyBeqList_eq : ∀ {a b : List PyVal}, pyBeqList a b = true → a = b
  | [], [], _ => rfl
  | a :: as, b :: bs, h => by
      simp only [pyBeqList, Bool.and_eq_true] at h
      have h1 := pyBeq_eq h.1
      have h2 := pyBeqList_eq h.2
      simp [h1, h2]

theorem pyBeqDict_eq : ∀ {a b : List (String × PyVal)}, pyBeqDict a b = true → a = b
  | [], [], _ => rfl
  | (k1, v1) :: as, (k2, v2) :: bs, h => by
      simp only [pyBeqDict, Bool.and_eq_true] at h
      have h1 : k1 = k2 := by have := h.1.1; simpa using this
      have h2 := pyBeq_eq h.1.2
      have h3 := pyBeqDict_eq h.2
      simp [h1, h2, h3]

end

mutual

theorem pyBeq_refl : ∀ (a : PyVal), pyBeq a a = true
  | .none => rfl
  | .bool a => by simp [pyBeq]
  | .int a => by simp [pyBeq]
  | .float a => by simp [pyBeq]
  | .str a => by simp [pyBeq]
  | .list a => by simp only [pyBeq]; exact pyBeqList_refl a
  | .dict a => by simp only [pyBeq]; exact pyBeqDict_refl a

theorem pyBeqList_refl : ∀ (a : List PyVal), pyBeqList a a = true
  | [] => rfl
  | a :: as => by
      simp only [pyBeqList, Bool.and_eq_true]
      exact ⟨pyBeq_refl a, pyBeqList_refl as⟩

theorem pyBeqDict_refl : ∀ (a : List (String × PyVal)), pyBeqDict a a = true
  | [] => rfl
  | (k, v) :: as => by
      simp only [pyBeqDict, Bool.and_eq_true]
      exact ⟨⟨by simp, pyBeq_refl v⟩, pyBeqDict_refl as⟩

end

instance : DecidableEq PyVal := fun a b =>
  if h : pyBeq a b = true then Decidable.isTrue (pyBeq_eq h)
  else Decidable.isFalse (fun he => h (he ▸ pyBeq_refl a))

/-- `d.get(key)` on a Python dict: first binding of `key`, `none` if absent. -/
def dget : List (String × PyVal) → String → Option PyVal
  | [], _ => Option.none
  | (k, v) :: t, key => if k = key then some v else dget t key

/-- `d[key] = v` on a Python dict: replace the first binding in place,
append a fresh binding when the key is absent. -/
def dset : List (String × PyVal) → String → PyVal → List (String × PyVal)
  | [], key, v => [(key, v)]
  | (k, w) :: t, key, v => if k = key then (k, v) :: t else (k, w) :: dset t key v

/-- The underlying association list of a dict value, `[]` for anything else
(mirrors the pervasive `if not isinstance(x, dict): x = {}` pattern). -/
def dictOf : PyVal → List (String × PyVal)
  | .dict l => l
  | _ => []

/-- The underlying element list of a list value, `[]` otherwise. -/
def listOf : PyVal → List PyVal
  | .list l => l
  | _ => []

/-- Python `isinstance(x, (int, float))` — `True`/`False` are `int` instances. -/
def isNum : PyVal → Bool
  | .bool _ => true
  | .int _ => true
  | .float _ => true
  | _ => false

/-- Python `isinstance(x, str)`. -/
def isStr : PyVal → Bool
  | .str _ => true
  | _ => false

/-- Python `isinstance(x, dict)`. -/
def isDict : PyVal → Bool
  | .dict _ => true
  | _ => false

/-- Numeric value of a Python number (`True` counts as 1, `False` as 0). -/
def toQ : PyVal → ℚ
  | .bool b => if b then 1 else 0
  | .int n => (n : ℚ)
  | .float q => q
  | _ => 0

/-- Python `int(x)` on a number: truncation toward zero. -/
def truncQ (q : ℚ) : ℤ :=
  if 0 ≤ q then ⌊q⌋ else -⌊-q⌋

/-- ASCII whitespace stripped by Python `str.strip()` (space, tab, newline,
carriage return, vertical tab, form feed). -/
def isPyWs (c : Char) : Bool :=
  c.val == 32 || c.val == 9 || c.val == 10 || c.val == 13 || c.val == 11 || c.val == 12

def pyStripList (l : List Char) : List Char :=
  ((l.dropWhile isPyWs).reverse.dropWhile isPyWs).reverse

/-- Python `str.strip()` (ASCII whitespace model). -/
def pyStrip (s : String) : String := String.mk (pyStripList s.data)

/-- Python `str.lower()` (ASCII model). -/
def pyLower (s : String) : String := String.mk (s.data.map Char.toLower)

/-- Python `str.startswith(pre)`. -/
def pyStartsWith (s pre : String) : Bool := pre.data.isPrefixOf s.data

theorem dget_dset_self (l : List (String × PyVal)) (k : String) (v : PyVal) :
    dget (dset l k v) k = some v := by
  induction l with
  | nil => simp [dget, dset]
  | cons hd t ih =>
      obtain ⟨k1, v1⟩ := hd
      by_cases h : k1 = k
      · simp [dget, dset, h]
      · simp [dget, dset, h, ih]

theorem dget_dset_ne (l : List (String × PyVal)) (k k2 : String) (v : PyVal)
    (h : k ≠ k2) : dget (dset l k v) k2 = dget l k2 := by
  induction l with
  | nil => simp [dget, dset, h]
  | cons hd t ih =>
      obtain ⟨k1, v1⟩ := hd
      by_cases h1 : k1 = k
      · subst h1; simp [dget, dset, h]
      · simp [dget, dset, h1, ih]

theorem dset_dget_id (l : List (String × PyVal)) (k : String) (v : PyVal)
    (h : dget l k = some v) : dset l k v = l := by
  induction l with
  | nil => simp [dget] at h
  | cons hd t ih =>
      obtain ⟨k1, v1⟩ := hd
      by_cases h1 : k1 = k
      · subst h1
        simp [dget] at h
        simp [dset, h]
      · simp [dget, h1] at h
        simp [dset, h1, ih h]

theorem pyStrip_ne_ws_head {l : List Char} :
    ∀ c ∈ ((l.dropWhile isPyWs).head?), isPyWs c = false := by
  intro c hc
  induction l with
  | nil => simp [List.dropWhile] at hc
  | cons a t ih =>
      by_cases h : isPyWs a
      · simpa [List.dropWhile, h] using ih (by simpa [List.dropWhile, h] using hc)
      · simp [List.dropWhile, h] at hc
        simpa [hc] using h

theorem dropWhile_eq_self_of_head {p : Char → Bool} {l : List Char}
    (h : ∀ c ∈ l.head?, p c = false) : l.dropWhile p = l := by
  cases l with
  | nil => rfl
  | cons a t =>
      have : p a = false := h a (by simp)
      simp [List.dropWhile, this]

theorem head_of_isPrefix {α : Type} {xs ys : List α} (h : xs <+: ys) {c : α}
    (hc : xs.head? = some c) : ys.head? = some c := by
  obtain ⟨t, rfl⟩ := h
  cases xs with
  | nil => simp at hc
  | cons a u => simpa using hc

theorem pyStripList_idem (l : List Char) : pyStripList (pyStripList l) = pyStripList l := by
  unfold pyStripList
  have hsfx : ((l.dropWhile isPyWs).reverse.dropWhile isPyWs) <:+
      (l.dropWhile isPyWs).reverse := List.dropWhile_suffix _
  have hpre : ((l.dropWhile isPyWs).reverse.dropWhile isPyWs).reverse <+:
      (l.dropWhile isPyWs) := by
    have := List.reverse_prefix.mpr hsfx
    simpa using this
  have hhead : ∀ c ∈ (((l.dropWhile isPyWs).reverse.dropWhile isPyWs).reverse.head?),
      isPyWs c = false := by
    intro c hc
    exact pyStrip_ne_ws_head (l := l) c (head_of_isPrefix hpre hc)
  rw [dropWhile_eq_self_of_head hhead]
  have hlast : (((l.dropWhile isPyWs).reverse.dropWhile isPyWs).reverse.reverse.dropWhile
      isPyWs) = ((l.dropWhile isPyWs).reverse.dropWhile isPyWs).reverse.reverse := by
    apply dropWhile_eq_self_of_head
    intro c hc
    rw [List.reverse_reverse] at hc
    exact pyStrip_ne_ws_head (l := (l.dropWhile isPyWs).reverse) c hc
  rw [hlast, List.reverse_reverse]

theorem pyStrip_idem (s : String) : pyStrip (pyStrip s) = pyStrip s := by
  unfold pyStrip
  congr 1
  have : (String.mk (pyStripList s.data)).data = pyStripList s.data := rfl
  rw [this, pyStripList_idem]

/-! ### Path model

A `PathA` is the component list of an absolute, `resolve()`d POSIX path
(`[]` is the root `/`).  `resolveStr` models `Path(s).resolve()` for a
process whose current working directory is `cwd`: split on `/`, make
absolute, drop empty and `.` components and fold `..`.  Symlinks are not
modelled.  `pathToStr` models `str(Path(...))`. -/

abbrev PathA := List String

def splitSlashCs : List Char → List (List Char)
  | [] => [[]]
  | c :: cs =>
      match splitSlashCs cs with
      | [] => [[]]
      | h :: t => if c = '/' then [] :: h :: t else (c :: h) :: t

def strToParts (s : String) : List String := (splitSlashCs s.data).map (fun l => String.mk l)

def joinSlash : List (List Char) → List Char
  | [] => []
  | [x] => x
  | x :: y :: t => x ++ '/' :: joinSlash (y :: t)

def pathToStr (p : PathA) : String := String.mk ('/' :: joinSlash (p.map String.data))

def normStep (acc : List String) (c : String) : List String :=
  if c = "" || c = "." then acc
  else if c = ".." then acc.dropLast
  else acc ++ [c]

def normComponents (l : List String) : List String := l.foldl normStep []

def resolveStr (cwd : PathA) (s : String) : PathA :=
  if pyStartsWith s "/" then normComponents (strToParts s)
  else normComponents (cwd ++ strToParts s)

/-- A path component that survives `resolve()` unchanged: nonempty, not a
dot component and without separators. -/
def cleanComp (c : String) : Bool :=
  !(c = "") && !(c = ".") && !(c = "..") && !(c.data.contains '/')

def cleanPath (p : PathA) : Bool := p.all cleanComp

/-- `os.path.commonpath([path, base]) == base` for absolute resolved paths:
`base`'s components are an initial segment of `path`'s. -/
def isWithinBase (p base : PathA) : Bool := base.isPrefixOf p

/-- The set of existing directories. -/
abbrev DirFS := List PathA

/-- `Path.mkdir(parents=True, exist_ok=True)` (only the directory itself is
recorded; ancestors are never queried by the embedded code). -/
def mkdirFS (p : PathA) (fs : DirFS) : DirFS := if p ∈ fs then fs else p :: fs

/-- The file store: contents of existing regular files. -/
abbrev FileFS := List (PathA × String)

def flookup : FileFS → PathA → Option String
  | [], _ => Option.none
  | (q, c) :: t, p => if q = p then some c else flookup t p

def fwrite : FileFS → PathA → String → FileFS
  | [], p, c => [(p, c)]
  | (q, c0) :: t, p, c => if q = p then (q, c) :: t else (q, c0) :: fwrite t p c

theorem splitSlashCs_ne_nil (cs : List Char) : splitSlashCs cs ≠ [] := by
  cases cs with
  | nil => simp [splitSlashCs]
  | cons c t =>
      simp only [splitSlashCs]
      cases h : splitSlashCs t with
      | nil => simp
      | cons h2 t2 =>
          by_cases hc : c = '/'
          · simp [hc]
          · simp [hc]

theorem splitSlashCs_noSlash (cs : List Char) :
    ∀ piece ∈ splitSlashCs cs, piece.contains '/' = false := by
  induction cs with
  | nil =>
      intro piece hp
      simp [splitSlashCs] at hp
      subst hp
      rfl
  | cons c t ih =>
      intro piece hp
      rcases hsplit : splitSlashCs t with _ | ⟨h2, t2⟩
      · exact absurd hsplit (splitSlashCs_ne_nil t)
      · have hmem : ∀ q ∈ h2 :: t2, q.contains '/' = false := by
          intro q hq
          exact ih q (hsplit ▸ hq)
        simp only [splitSlashCs, hsplit] at hp
        by_cases hc : c = '/'
        · simp [hc] at hp
          rcases hp with hp | hp
          · subst hp; rfl
          · exact hmem piece (List.mem_cons.mpr hp)
        · simp [hc] at hp
          rcases hp with hp | hp
          · subst hp
            have hh2 := hmem h2 (by simp)
            rw [List.contains_cons]
            apply Bool.or_eq_false_iff.mpr
            exact ⟨beq_eq_false_iff_ne.mpr (Ne.symm hc), hh2⟩
          · exact hmem piece (by simp [hp])

theorem splitSlashCs_append_noSlash (x cs : List Char) (hx : x.contains '/' = false) :
    splitSlashCs (x ++ cs) =
      (x ++ (splitSlashCs cs).headI) :: (splitSlashCs cs).tail := by
  induction x with
  | nil =>
      simp only [List.nil_append]
      cases h : splitSlashCs cs with
      | nil => exact absurd h (splitSlashCs_ne_nil cs)
      | cons a t => simp [h, List.headI]
  | cons c t ih =>
      have hc : c ≠ '/' := by
        intro he
        subst he
        rw [List.contains_cons] at hx
        simp at hx
      have ht : t.contains '/' = false := by
        rw [List.contains_cons] at hx
        exact (Bool.or_eq_false_iff.mp hx).2
      have hstep : (c :: t) ++ cs = c :: (t ++ cs) := rfl
      rw [hstep]
      simp only [splitSlashCs]
      rw [ih ht]
      simp [hc]

theorem splitSlashCs_single (x : List Char) (hx : x.contains '/' = false) :
    splitSlashCs x = [x] := by
  have h := splitSlashCs_append_noSlash x [] hx
  simpa [splitSlashCs, List.headI] using h

theorem splitSlashCs_joinSlash : ∀ (l : List (List Char)),
    (∀ x ∈ l, x.contains '/' = false) → l ≠ [] → splitSlashCs (joinSlash l) = l
  | [], _, hne => absurd rfl hne
  | [x], h, _ => by
      simp only [joinSlash]
      exact splitSlashCs_single x (h x (by simp))
  | x :: y :: t, h, _ => by
      have hx : x.contains '/' = false := h x (by simp)
      have hrest : splitSlashCs (joinSlash (y :: t)) = y :: t :=
        splitSlashCs_joinSlash (y :: t) (fun q hq => h q (by simp [hq])) (by simp)
      simp only [joinSlash]
      rw [splitSlashCs_append_noSlash x ('/' :: joinSlash (y :: t)) hx]
      have hs : splitSlashCs ('/' :: joinSlash (y :: t)) = [] :: y :: t := by
        simp only [splitSlashCs]
        rw [hrest]
        simp
      rw [hs]
      simp [List.headI]

theorem norm_noop : ∀ (l : List String) (acc : List String),
    (∀ c ∈ l, cleanComp c = true) → List.foldl normStep acc l = acc ++ l
  | [], acc, _ => by simp
  | c :: t, acc, h => by
      have hc := h c (by simp)
      simp only [cleanComp, Bool.and_eq_true, Bool.not_eq_true', decide_eq_false_iff_not]
        at hc
      have hstep : normStep acc c = acc ++ [c] := by
        simp [normStep, hc.1.1.1, hc.1.1.2, hc.1.2]
      simp only [List.foldl, hstep]
      rw [norm_noop t (acc ++ [c]) (fun q hq => h q (by simp [hq]))]
      simp

theorem norm_clean : ∀ (l : List String) (acc : List String),
    (∀ c ∈ acc, cleanComp c = true) → (∀ c ∈ l, c.data.contains '/' = false) →
    ∀ c ∈ List.foldl normStep acc l, cleanComp c = true
  | [], acc, hacc, _ => by simpa using hacc
  | c :: t, acc, hacc, hl => by
      intro q hq
      have hnext : ∀ r ∈ normStep acc c, cleanComp r = true := by
        intro r hr
        by_cases h1 : c = "" ∨ c = "."
        · have : normStep acc c = acc := by
            rcases h1 with h1 | h1 <;> simp [normStep, h1]
          rw [this] at hr
          exact hacc r hr
        · push_neg at h1
          by_cases h2 : c = ".."
          · have : normStep acc c = acc.dropLast := by simp [normStep, h1.1, h1.2, h2]
            rw [this] at hr
            exact hacc r (List.dropLast_subset _ hr)
          · have : normStep acc c = acc ++ [c] := by simp [normStep, h1.1, h1.2, h2]
            rw [this] at hr
            rcases List.mem_append.mp hr with hr | hr
            · exact hacc r hr
            · rw [show r = c by simpa using hr]
              have hnos : c.data.contains '/' = false := hl c (by simp)
              have hnos2 : ('/' : Char) ∉ c.data := by simpa using hnos
              simp [cleanComp, h1.1, h1.2, h2, hnos2]
      exact norm_clean t (normStep acc c) hnext (fun r hr => hl r (by simp [hr])) q hq

theorem strToParts_noSlash (s : String) :
    ∀ c ∈ strToParts s, c.data.contains '/' = false := by
  intro c hc
  simp only [strToParts, List.mem_map] at hc
  obtain ⟨piece, hmem, rfl⟩ := hc
  exact splitSlashCs_noSlash s.data piece hmem

theorem resolveStr_clean (cwd : PathA) (s : String) (hc : cleanPath cwd = true) :
    cleanPath (resolveStr cwd s) = true := by
  have hcwd : ∀ c ∈ cwd, cleanComp c = true := by
    intro c hmem
    exact List.all_eq_true.mp hc c hmem
  unfold resolveStr
  by_cases h : pyStartsWith s "/" = true
  · simp only [h, if_true]
    apply List.all_eq_true.mpr
    exact norm_clean (strToParts s) [] (by simp) (strToParts_noSlash s)
  · simp only [Bool.not_eq_true] at h
    simp only [h, Bool.false_eq_true, if_false]
    apply List.all_eq_true.mpr
    apply norm_clean (cwd ++ strToParts s) [] (by simp)
    intro c hmem
    rcases List.mem_append.mp hmem with hm | hm
    · have := hcwd c hm
      simp only [cleanComp, Bool.and_eq_true, Bool.not_eq_true', decide_eq_false_iff_not]
        at this
      exact this.2
    · exact strToParts_noSlash s c hm

theorem pathToStr_startsWith_slash (p : PathA) : pyStartsWith (pathToStr p) "/" = true := by
  simp [pyStartsWith, pathToStr, List.isPrefixOf]

theorem pathToStr_ne_empty (p : PathA) : pathToStr p ≠ "" := by
  intro h
  have : (pathToStr p).data = ("" : String).data := by rw [h]
  simp [pathToStr] at this

theorem resolveStr_pathToStr (cwd : PathA) (p : PathA) (hp : cleanPath p = true) :
    resolveStr cwd (pathToStr p) = p := by
  have hclean : ∀ c ∈ p, cleanComp c = true := fun c hc => List.all_eq_true.mp hp c hc
  unfold resolveStr
  rw [pathToStr_startsWith_slash]
  simp only [if_true]
  cases p with
  | nil =>
      have : strToParts (pathToStr []) = ["", ""] := by rfl
      rw [this]
      rfl
  | cons a t =>
      have hjoin : splitSlashCs (joinSlash ((a :: t).map String.data)) =
          (a :: t).map String.data := by
        apply splitSlashCs_joinSlash
        · intro x hx
          simp only [List.mem_map] at hx
          obtain ⟨c, hmem, rfl⟩ := hx
          have := hclean c hmem
          simp only [cleanComp, Bool.and_eq_true, Bool.not_eq_true',
            decide_eq_false_iff_not] at this
          exact this.2
        · simp
      have hmkd : ∀ (l : List String), (l.map String.data).map (fun d => String.mk d) = l := by
        intro l
        induction l with
        | nil => rfl
        | cons x xs ih => simp only [List.map_cons, ih]
      have hsplit : strToParts (pathToStr (a :: t)) = "" :: a :: t := by
        simp only [strToParts, pathToStr]
        show (splitSlashCs ('/' :: joinSlash ((a :: t).map String.data))).map
            (fun l => String.mk l) = "" :: a :: t
        simp only [splitSlashCs]
        simp only [List.map_cons] at hjoin ⊢
        rw [hjoin]
        show List.map (fun l => String.mk l)
            (([] : List Char) :: a.data :: List.map String.data t) = "" :: a :: t
        simp only [List.map_cons]
        have h2 := hmkd (a :: t)
        simp only [List.map_cons] at h2
        rw [show String.mk ([] : List Char) = "" from rfl]
        rw [h2]
      rw [hsplit]
      have : normComponents ("" :: a :: t) = List.foldl normStep [] (a :: t) := by
        simp [normComponents, List.foldl, normStep]
      rw [this]
      rw [norm_noop (a :: t) [] hclean]
      simp

/-! ### Memory store and repair — `der/memory/store.py`

Each helper mirrors one validation pattern of the source.  Numbers are
exact rationals (`float` arithmetic is modelled exactly); the source's
`int(x)` is `truncQ`. -/

def getv (o : Option PyVal) : PyVal := o.getD PyVal.none

/-- `x if isinstance(x, (int, float)) and lo <= x <= hi else dflt`. -/
def clampNumQ (lo hi dflt : ℚ) (v : Option PyVal) : ℚ :=
  match v with
  | some x => if isNum x ∧ lo ≤ toQ x ∧ toQ x ≤ hi then toQ x else dflt
  | _ => dflt

/-- `store.py:38-41` — nonnegative observation count, `int()`-truncated. -/
def cellN (v : Option PyVal) : ℤ :=
  match v with
  | some x => if isNum x ∧ 0 ≤ toQ x then truncQ (toQ x) else 0
  | _ => 0

/-- `store.py:53-55` — `last_used_run_id` is kept verbatim when it is a
string with nonempty strip, else replaced by `None`. -/
def cellLur (v : Option PyVal) : PyVal :=
  match v with
  | some (.str s) => if pyStrip s = "" then PyVal.none else PyVal.str s
  | _ => PyVal.none

/-- `store.py:57-60` — any number is accepted for `ucb`, default `0.0`. -/
def cellUcb (v : Option PyVal) : ℚ :=
  match v with
  | some x => if isNum x then toQ x else 0
  | _ => 0

/-- `store.py:33-62` `repair_cell`. -/
def repair_cell (cell : PyVal) : PyVal :=
  let d := dictOf cell
  .dict [("n", .int (cellN (dget d "n"))),
         ("mean_reward", .float (clampNumQ 0 1 0 (dget d "mean_reward"))),
         ("mean_cost", .float (clampNumQ 0 1 0 (dget d "mean_cost"))),
         ("last_used_run_id", cellLur (dget d "last_used_run_id")),
         ("ucb", .float (cellUcb (dget d "ucb")))]

/-- `store.py:18-22` — one role weight: `wi.get(role, 0.5)`, replaced by
`0.5` when not a number or negative. -/
def calc_weight (d : List (String × PyVal)) (role : String) : ℚ :=
  match dget d role with
  | some x => if isNum x ∧ 0 ≤ toQ x then toQ x else 1/2
  | _ => 1/2

/-- `store.py:14-31` `calculate_weights`. -/
def calculate_weights (weighted_inputs : PyVal) : PyVal :=
  let d := dictOf weighted_inputs
  let a := calc_weight d "architect"
  let b := calc_weight d "implementer"
  let total := a + b
  if total ≤ 0 then
    .dict [("architect", .float (1/2)), ("implementer", .float (1/2))]
  else
    .dict [("architect", .float (a / total)), ("implementer", .float (b / total))]

structure SpecFields where
  label : PyVal
  cost_tier : PyVal
  provider : PyVal
  provider_model : PyVal
  params : PyVal

def COST_TIERS : List String := ["low", "mid", "high"]

def PROVIDERS : List String := ["gemini", "openai", "anthropic"]

/-- `store.py:105-136` / `store.py:160-191` — repair of one pool entry.
`tempHi` is `1` for the model pool and `2` for the chairman pool. -/
def repairSpec (defs : SpecFields) (tempHi : ℚ) (input : Option PyVal) : SpecFields :=
  match input with
  | some (.dict d) =>
      let label := (dget d "label").getD defs.label
      let cost_tier :=
        match dget d "cost_tier" with
        | some (.str s) =>
            if pyLower (pyStrip s) ∈ COST_TIERS then PyVal.str s else defs.cost_tier
        | _ => defs.cost_tier
      let provider :=
        match dget d "provider" with
        | some (.str s) =>
            if pyLower (pyStrip s) ∈ PROVIDERS then PyVal.str (pyLower (pyStrip s))
            else defs.provider
        | _ => defs.provider
      let provider_model :=
        match dget d "provider_model" with
        | some (.str s) => if pyStrip s = "" then defs.provider_model else PyVal.str (pyStrip s)
        | _ => defs.provider_model
      let pl :=
        match dget d "params" with
        | some (.dict pl) => pl
        | _ => []
      let temperature := clampNumQ 0 tempHi 0 (dget pl "temperature")
      let params := PyVal.dict (dset pl "temperature" (.float temperature))
      ⟨label, cost_tier, provider, provider_model, params⟩
  | _ => defs

/-- Output key order of a repaired model-pool entry (`store.py:137-141`). -/
def specToDictModel (f : SpecFields) : PyVal :=
  .dict [("label", f.label), ("cost_tier", f.cost_tier), ("provider", f.provider),
         ("provider_model", f.provider_model), ("params", f.params)]

/-- Output key order of a repaired chairman-pool entry (`store.py:192-196`). -/
def specToDictChairman (f : SpecFields) : PyVal :=
  .dict [("label", f.label), ("provider", f.provider),
         ("provider_model", f.provider_model), ("params", f.params),
         ("cost_tier", f.cost_tier)]

def m1_defaults : SpecFields :=
  ⟨.str "Gemini 2.5 Pro", .str "mid", .str "gemini", .str "gemini-2.5-pro",
   .dict [("temperature", .float 0)]⟩

def m2_defaults : SpecFields :=
  ⟨.str "Claude Sonnet 4.5", .str "mid", .str "anthropic",
   .str "claude-sonnet-4-5-20250929", .dict [("temperature", .float 0)]⟩

def c1_defaults : SpecFields :=
  ⟨.str "GPT-4.1 Chairman", .str "mid", .str "openai", .str "gpt-4.1",
   .dict [("temperature", .float 0)]⟩

def dictOrEmpty (v : Option PyVal) : PyVal :=
  match v with
  | some (.dict l) => PyVal.dict l
  | _ => .dict []

def listOrEmpty (v : Option PyVal) : PyVal :=
  match v with
  | some (.list l) => PyVal.list l
  | _ => .list []

/-- `store.py:259-268` / `store.py:337-346` — per-model bucket of a
bootstrap store: each model id maps to the stored dict, `{}` otherwise. -/
def bootstrapBucket (v : Option PyVal) : PyVal :=
  let bl := dictOf (getv v)
  .dict [("M1", dictOrEmpty (dget bl "M1")), ("M2", dictOrEmpty (dget bl "M2"))]

/-- `store.py:70-76` — run ids are stripped strings with a fixed default. -/
def runIdRepair (dflt : String) (v : Option PyVal) : PyVal :=
  match v with
  | some (.str s) => .str (pyStrip s)
  | _ => .str dflt

/-- `store.py:204-206` — the active chairman: kept when its strip is a
chairman-pool id, else the lexicographically first id `C1`. -/
def chairmanActiveRepair (v : Option PyVal) : PyVal :=
  match v with
  | some (.str s) => if pyStrip s ∈ ["C1"] then PyVal.str (pyStrip s) else .str "C1"
  | _ => .str "C1"

/-- `store.py:327-330` — `final_model`, default `M1`. -/
def finalModelRepair (v : Option PyVal) : PyVal :=
  match v with
  | some (.str s) => if pyStrip s ∈ ["M1", "M2"] then PyVal.str (pyStrip s) else .str "M1"
  | _ => .str "M1"

/-- `store.py:243-246` — `warmup_runs`: `int()` first, then range `[0,5]`. -/
def warmupRepair (v : Option PyVal) : ℤ :=
  match v with
  | some x =>
      if isNum x ∧ 0 ≤ truncQ (toQ x) ∧ truncQ (toQ x) ≤ 5 then truncQ (toQ x) else 3
  | _ => 3

/-- `store.py:248-251` — `runs_completed`: any number, `int()`-truncated. -/
def runsCompletedRepair (v : Option PyVal) : ℤ :=
  match v with
  | some x => if isNum x then truncQ (toQ x) else 0
  | _ => 0

/-- `store.py:281-289` — timeout: raw value must lie in `[300,360]`,
then `int()`; defaults 300 (agents) and 360 (chairman). -/
def timeoutRepair (dflt : ℤ) (v : Option PyVal) : ℤ :=
  match v with
  | some x => if isNum x ∧ 300 ≤ toQ x ∧ toQ x ≤ 360 then truncQ (toQ x) else dflt
  | _ => dflt

/-- `store.py:297-305` — choice of the base path: the stored string is
stripped and resolved; it is kept only when it denotes an existing
directory, else `root_path / "code"`.  (`is_absolute()` always holds for
a `resolve()`d path and is therefore not modelled separately.) -/
def baseOfDs (dsl : List (String × PyVal)) (root_path cwd : PathA) (fs : DirFS) : PathA :=
  let bpStr :=
    match dget dsl "base_path" with
    | some (.str s) => pyStrip s
    | _ => ""
  if bpStr = "" then root_path ++ ["code"]
  else
    let b := resolveStr cwd bpStr
    if b ∈ fs then b else root_path ++ ["code"]

/-- `store.py:308-324` — the per-model directory node: recomputed `path`,
stored `dirs` dict and `files` list kept as they are. -/
def dirNodeFor (dsl : List (String × PyVal)) (base : PathA) (model : String) : PyVal :=
  let cur := dictOf (getv (dget dsl model))
  .dict [("path", .str (pathToStr (base ++ [model]))),
         ("dirs", dictOrEmpty (dget cur "dirs")),
         ("files", listOrEmpty (dget cur "files"))]

/-- `store.py:212-217` — the repaired cells of one role. -/
def roleCellsRepair (rms : List (String × PyVal)) (role : String) : PyVal :=
  let rm := dictOf (getv (dget rms role))
  .dict [("M1", repair_cell (getv (dget rm "M1"))),
         ("M2", repair_cell (getv (dget rm "M2")))]

/-- `store.py:64-354` `repair_memory`.  `first_run` is accepted and unused
exactly as in the source.  `cwd` is the process working directory used by
`Path.resolve`; `fs` the set of existing directories, which `mkdir` calls
extend. -/
def repair_memory (memory : PyVal) (first_run : Bool) (root_path cwd : PathA)
    (fs : DirFS) : PyVal × DirFS :=
  let md := dictOf memory
  let mpl := dictOf (getv (dget md "model_pool"))
  let cpl := dictOf (getv (dget md "chairman_pool"))
  let rms := dictOf (getv (dget md "role_model_stats"))
  let rpl := dictOf (getv (dget md "routing_policy"))
  let exl := dictOf (getv (dget md "exploration"))
  let cssl := dictOf (getv (dget md "chairman_summary_store"))
  let tol := dictOf (getv (dget md "timeout_defaults"))
  let dsl := dictOf (getv (dget md "directory_structure"))
  let cel := dictOf (getv (dget md "chairman_edits"))
  let base := baseOfDs dsl root_path cwd fs
  let fs1 := mkdirFS base fs
  let fs2 := mkdirFS (base ++ ["M1"]) fs1
  let fs3 := mkdirFS (base ++ ["M2"]) fs2
  (.dict
    [("current_run_id", runIdRepair "run_000001" (dget md "current_run_id")),
     ("last_run_id", runIdRepair "run_000000" (dget md "last_run_id")),
     ("weighted_inputs", calculate_weights (getv (dget md "weighted_inputs"))),
     ("model_pool", .dict
        [("M1", specToDictModel (repairSpec m1_defaults 1 (dget mpl "M1"))),
         ("M2", specToDictModel (repairSpec m2_defaults 1 (dget mpl "M2")))]),
     ("chairman_pool", .dict
        [("C1", specToDictChairman (repairSpec c1_defaults 2 (dget cpl "C1")))]),
     ("chairman_active", chairmanActiveRepair (dget md "chairman_active")),
     ("role_model_stats", .dict
        [("architect", roleCellsRepair rms "architect"),
         ("implementer", roleCellsRepair rms "implementer")]),
     ("routing_policy", .dict
        [("ucb_c", .float (clampNumQ 0 1 (1/2) (dget rpl "ucb_c"))),
         ("cost_penalty", .float (clampNumQ 0 1 (2/5) (dget rpl "cost_penalty")))]),
     ("exploration", .dict
        [("warmup_runs", .int (warmupRepair (dget exl "warmup_runs"))),
         ("runs_completed", .int (runsCompletedRepair (dget exl "runs_completed")))]),
     ("chairman_summary_store", .dict
        [("bootstrap", bootstrapBucket (dget cssl "bootstrap")),
         ("iterate", dictOrEmpty (dget cssl "iterate"))]),
     ("timeout_defaults", .dict
        [("run_agents_timeout_s", .int (timeoutRepair 300 (dget tol "run_agents_timeout_s"))),
         ("chairman_timeout_s", .int (timeoutRepair 360 (dget tol "chairman_timeout_s")))]),
     ("directory_structure", .dict
        [("base_path", .str (pathToStr base)),
         ("M1", dirNodeFor dsl base "M1"),
         ("M2", dirNodeFor dsl base "M2")]),
     ("final_model", finalModelRepair (dget md "final_model")),
     ("chairman_edits", .dict
        [("bootstrap", bootstrapBucket (dget cel "bootstrap")),
         ("iterate", dictOrEmpty (dget cel "iterate"))])],
   fs3)

/-- Keys of a dict value, in insertion order. -/
def dkeys (v : PyVal) : List String := (dictOf v).map Prod.fst

/-! ### Sorted-keys serialisation

`encodeSorted` models the canonical form in which memory is serialised
(`json.dump(..., sort_keys=True)`): keys sorted by code point, one
canonical rendering per scalar.  Only equality / inequality of encodings
is ever used, and the rendering of every scalar is injective, so layout
details (indentation, float `repr`) are irrelevant and not reproduced;
exact rationals stand in for floats as everywhere else. -/

def lexLe : List Char → List Char → Bool
  | [], _ => true
  | _ :: _, [] => false
  | c :: t, d :: u =>
      if c.toNat < d.toNat then true
      else if c.toNat = d.toNat then lexLe t u
      else false

def strLe (a b : String) : Bool := lexLe a.data b.data

def insertByKey (p : String × PyVal) : List (String × PyVal) → List (String × PyVal)
  | [] => [p]
  | q :: t => if strLe p.1 q.1 then p :: q :: t else q :: insertByKey p t

def sortByKey (l : List (String × PyVal)) : List (String × PyVal) :=
  l.foldr insertByKey []

def quoteStr (s : String) : String := "\"" ++ s ++ "\""

def encodeSorted : ℕ → PyVal → String
  | 0, _ => ""
  | _, .none => "null"
  | _, .bool b => if b then "true" else "false"
  | _, .int n => toString n
  | _, .float q => "f" ++ toString q.num ++ "/" ++ toString q.den
  | _, .str s => quoteStr s
  | fuel + 1, .list l =>
      "[" ++ String.intercalate "," (l.map (encodeSorted fuel)) ++ "]"
  | fuel + 1, .dict d =>
      "\x7b" ++ String.intercalate ","
        ((sortByKey d).map (fun kv => quoteStr kv.1 ++ ":" ++ encodeSorted fuel kv.2)) ++
        "\x7d"

/-- The base directory `repair_memory` settles on (`store.py:297-305`). -/
def repairedBase (memory : PyVal) (root_path cwd : PathA) (fs : DirFS) : PathA :=
  baseOfDs (dictOf (getv (dget (dictOf memory) "directory_structure"))) root_path cwd fs

/-! ### Repair idempotence — supporting lemmas -/

theorem truncQ_intCast (n : ℤ) : truncQ (n : ℚ) = n := by
  unfold truncQ
  by_cases h : (0 : ℚ) ≤ (n : ℚ)
  · simp [h, Int.floor_intCast]
  · rw [if_neg h]
    rw [show (-(n : ℚ)) = ((-n : ℤ) : ℚ) by push_cast; ring]
    rw [Int.floor_intCast]
    ring

theorem truncQ_nonneg {q : ℚ} (h : 0 ≤ q) : 0 ≤ truncQ q := by
  unfold truncQ
  rw [if_pos h]
  exact Int.le_floor.mpr (by simpa using h)

theorem truncQ_le_of_le {q : ℚ} {b : ℤ} (h0 : 0 ≤ q) (h : q ≤ (b : ℚ)) : truncQ q ≤ b := by
  unfold truncQ
  rw [if_pos h0]
  calc ⌊q⌋ ≤ ⌊(b : ℚ)⌋ := Int.floor_le_floor h
    _ = b := Int.floor_intCast b

theorem truncQ_ge_of_ge {q : ℚ} {b : ℤ} (hb : 0 ≤ b) (h : (b : ℚ) ≤ q) : b ≤ truncQ q := by
  have h0 : 0 ≤ q := le_trans (by exact_mod_cast hb) h
  unfold truncQ
  rw [if_pos h0]
  exact Int.le_floor.mpr h

theorem clampNumQ_mem (lo hi dflt : ℚ) (v : Option PyVal) (h1 : lo ≤ dflt) (h2 : dflt ≤ hi) :
    lo ≤ clampNumQ lo hi dflt v ∧ clampNumQ lo hi dflt v ≤ hi := by
  cases v with
  | none => exact ⟨h1, h2⟩
  | some x =>
      by_cases h : isNum x ∧ lo ≤ toQ x ∧ toQ x ≤ hi
      · simp only [clampNumQ, if_pos h]
        exact ⟨h.2.1, h.2.2⟩
      · simp only [clampNumQ, if_neg h]
        exact ⟨h1, h2⟩

theorem clampNumQ_float_id (lo hi dflt q : ℚ) (h1 : lo ≤ q) (h2 : q ≤ hi) :
    clampNumQ lo hi dflt (some (.float q)) = q := by
  simp [clampNumQ, isNum, toQ, h1, h2]

theorem cellN_nonneg (v : Option PyVal) : 0 ≤ cellN v := by
  cases v with
  | none => simp [cellN]
  | some x =>
      by_cases h : isNum x ∧ 0 ≤ toQ x
      · simp only [cellN, if_pos h]
        exact truncQ_nonneg h.2
      · simp only [cellN, if_neg h]
        exact le_refl 0

theorem cellN_int_id (n : ℤ) (h : 0 ≤ n) : cellN (some (.int n)) = n := by
  have h2 : (0 : ℚ) ≤ ((n : ℤ) : ℚ) := by exact_mod_cast h
  simp [cellN, isNum, toQ, h2, truncQ_intCast]

theorem cellLur_idem (v : Option PyVal) : cellLur (some (cellLur v)) = cellLur v := by
  match v with
  | Option.none => rfl
  | some PyVal.none => rfl
  | some (.bool b) => rfl
  | some (.int n) => rfl
  | some (.float q) => rfl
  | some (.list l) => rfl
  | some (.dict l) => rfl
  | some (.str s) =>
      by_cases h : pyStrip s = ""
      · simp [cellLur, h]
      · simp [cellLur, h]

theorem repair_cell_idem (c : PyVal) : repair_cell (repair_cell c) = repair_cell c := by
  conv_lhs => rw [show repair_cell c = PyVal.dict
    [("n", .int (cellN (dget (dictOf c) "n"))),
     ("mean_reward", .float (clampNumQ 0 1 0 (dget (dictOf c) "mean_reward"))),
     ("mean_cost", .float (clampNumQ 0 1 0 (dget (dictOf c) "mean_cost"))),
     ("last_used_run_id", cellLur (dget (dictOf c) "last_used_run_id")),
     ("ucb", .float (cellUcb (dget (dictOf c) "ucb")))] from rfl]
  unfold repair_cell
  simp only [dictOf, dget]
  norm_num
  refine ⟨?_, ?_, ?_, ?_, ?_⟩
  · exact cellN_int_id _ (cellN_nonneg _)
  · exact clampNumQ_float_id _ _ _ _ (clampNumQ_mem 0 1 0 _ (by norm_num) (by norm_num)).1
      (clampNumQ_mem 0 1 0 _ (by norm_num) (by norm_num)).2
  · exact clampNumQ_float_id _ _ _ _ (clampNumQ_mem 0 1 0 _ (by norm_num) (by norm_num)).1
      (clampNumQ_mem 0 1 0 _ (by norm_num) (by norm_num)).2
  · exact cellLur_idem _
  · simp [cellUcb, isNum, toQ]
theorem calc_weight_nonneg (d : List (String × PyVal)) (role : String) :
    0 ≤ calc_weight d role := by
  rcases h : dget d role with _ | x
  · simp [calc_weight, h]
  · simp only [calc_weight, h]
    by_cases h2 : isNum x ∧ 0 ≤ toQ x
    · rw [if_pos h2]; exact h2.2
    · rw [if_neg h2]; norm_num

theorem calc_weight_float_id (d : List (String × PyVal)) (role : String) (q : ℚ)
    (hq : 0 ≤ q) (h : dget d role = some (.float q)) : calc_weight d role = q := by
  simp only [calc_weight, h]
  simp [isNum, toQ, hq]

theorem calculate_weights_idem (x : PyVal) :
    calculate_weights (calculate_weights x) = calculate_weights x := by
  have ha := calc_weight_nonneg (dictOf x) "architect"
  have hb := calc_weight_nonneg (dictOf x) "implementer"
  set a := calc_weight (dictOf x) "architect" with hadef
  set b := calc_weight (dictOf x) "implementer" with hbdef
  by_cases h : a + b ≤ 0
  · have hinner : calculate_weights x =
        .dict [("architect", .float (1/2)), ("implementer", .float (1/2))] := by
      simp only [calculate_weights]
      rw [← hadef, ← hbdef, if_pos h]
    rw [hinner]
    simp only [calculate_weights]
    have g1 : calc_weight (dictOf (PyVal.dict
        [("architect", .float (1/2)), ("implementer", .float (1/2))])) "architect" = 1/2 :=
      calc_weight_float_id _ _ _ (by norm_num) (by simp [dictOf, dget])
    have g2 : calc_weight (dictOf (PyVal.dict
        [("architect", .float (1/2)), ("implementer", .float (1/2))])) "implementer" = 1/2 :=
      calc_weight_float_id _ _ _ (by norm_num) (by simp [dictOf, dget])
    rw [g1, g2]
    norm_num
  · have hpos : 0 < a + b := lt_of_not_le h
    have hinner : calculate_weights x =
        .dict [("architect", .float (a / (a + b))), ("implementer", .float (b / (a + b)))] := by
      simp only [calculate_weights]
      rw [← hadef, ← hbdef, if_neg h]
    rw [hinner]
    simp only [calculate_weights]
    have g1 : calc_weight (dictOf (PyVal.dict
        [("architect", .float (a / (a + b))), ("implementer", .float (b / (a + b)))]))
        "architect" = a / (a + b) :=
      calc_weight_float_id _ _ _ (div_nonneg ha (le_of_lt hpos)) (by simp [dictOf, dget])
    have g2 : calc_weight (dictOf (PyVal.dict
        [("architect", .float (a / (a + b))), ("implementer", .float (b / (a + b)))]))
        "implementer" = b / (a + b) :=
      calc_weight_float_id _ _ _ (div_nonneg hb (le_of_lt hpos)) (by simp [dictOf, dget])
    rw [g1, g2]
    have hsum : a / (a + b) + b / (a + b) = 1 := by
      rw [div_add_div_same, div_self (ne_of_gt hpos)]
    rw [hsum]
    norm_num
theorem runIdRepair_idem (dflt : String) (hd : pyStrip dflt = dflt) (v : Option PyVal) :
    runIdRepair dflt (some (runIdRepair dflt v)) = runIdRepair dflt v := by
  rcases v with _ | x
  · simp [runIdRepair, hd]
  · cases x with
    | str s => simp [runIdRepair, pyStrip_idem]
    | none => simp [runIdRepair, hd]
    | bool b => simp [runIdRepair, hd]
    | int n => simp [runIdRepair, hd]
    | float q => simp [runIdRepair, hd]
    | list l => simp [runIdRepair, hd]
    | dict l => simp [runIdRepair, hd]

theorem chairmanActiveRepair_val (v : Option PyVal) :
    chairmanActiveRepair v = .str "C1" := by
  rcases v with _ | x
  · rfl
  · cases x with
    | str s =>
        by_cases h : pyStrip s ∈ ["C1"]
        · have : pyStrip s = "C1" := by simpa using h
          simp [chairmanActiveRepair, h, this]
        · simp [chairmanActiveRepair, h]
    | none => rfl
    | bool b => rfl
    | int n => rfl
    | float q => rfl
    | list l => rfl
    | dict l => rfl

theorem chairmanActiveRepair_idem (v : Option PyVal) :
    chairmanActiveRepair (some (chairmanActiveRepair v)) = chairmanActiveRepair v := by
  rw [chairmanActiveRepair_val v, chairmanActiveRepair_val (some (.str "C1"))]

theorem finalModelRepair_idem (v : Option PyVal) :
    finalModelRepair (some (finalModelRepair v)) = finalModelRepair v := by
  have hM1 : finalModelRepair (some (.str "M1")) = .str "M1" := by decide
  have hM2 : finalModelRepair (some (.str "M2")) = .str "M2" := by decide
  rcases v with _ | x
  · exact hM1
  · cases x with
    | str s =>
        by_cases h : pyStrip s ∈ ["M1", "M2"]
        · have h2 : finalModelRepair (some (.str s)) = .str (pyStrip s) := by
            simp [finalModelRepair, h]
          rw [h2]
          rcases (by simpa using h : pyStrip s = "M1" ∨ pyStrip s = "M2") with h3 | h3 <;>
            rw [h3] <;> simp [hM1, hM2, h2, h3]
        · have h2 : finalModelRepair (some (.str s)) = .str "M1" := by
            simp [finalModelRepair, h]
          rw [h2, hM1]
    | none => exact hM1
    | bool b => exact hM1
    | int n => exact hM1
    | float q => exact hM1
    | list l => exact hM1
    | dict l => exact hM1

theorem warmupRepair_bounds (v : Option PyVal) :
    0 ≤ warmupRepair v ∧ warmupRepair v ≤ 5 := by
  rcases v with _ | x
  · simp [warmupRepair]
  · by_cases h : isNum x ∧ 0 ≤ truncQ (toQ x) ∧ truncQ (toQ x) ≤ 5
    · simp only [warmupRepair, if_pos h]
      exact ⟨h.2.1, h.2.2⟩
    · simp only [warmupRepair, if_neg h]
      norm_num

theorem warmupRepair_idem (v : Option PyVal) :
    warmupRepair (some (.int (warmupRepair v))) = warmupRepair v := by
  obtain ⟨h1, h2⟩ := warmupRepair_bounds v
  set w := warmupRepair v with hw
  have hcond : isNum (.int w) = true ∧
      0 ≤ truncQ (toQ (.int w)) ∧ truncQ (toQ (.int w)) ≤ 5 := by
    refine ⟨rfl, ?_, ?_⟩ <;> simp only [toQ, truncQ_intCast] <;> assumption
  show warmupRepair (some (.int w)) = w
  simp only [warmupRepair]
  rw [if_pos hcond]
  simp [toQ, truncQ_intCast]

theorem runsCompletedRepair_idem (v : Option PyVal) :
    runsCompletedRepair (some (.int (runsCompletedRepair v))) = runsCompletedRepair v := by
  simp [runsCompletedRepair, isNum, toQ, truncQ_intCast]

theorem timeoutRepair_bounds (dflt : ℤ) (v : Option PyVal) (h1 : 300 ≤ dflt)
    (h2 : dflt ≤ 360) : 300 ≤ timeoutRepair dflt v ∧ timeoutRepair dflt v ≤ 360 := by
  rcases v with _ | x
  · exact ⟨h1, h2⟩
  · by_cases h : isNum x ∧ 300 ≤ toQ x ∧ toQ x ≤ 360
    · simp only [timeoutRepair, if_pos h]
      exact ⟨truncQ_ge_of_ge (by norm_num) h.2.1, truncQ_le_of_le (le_trans (by norm_num) h.2.1) h.2.2⟩
    · simp only [timeoutRepair, if_neg h]
      exact ⟨h1, h2⟩

theorem timeoutRepair_idem (dflt : ℤ) (v : Option PyVal) (h1 : 300 ≤ dflt)
    (h2 : dflt ≤ 360) :
    timeoutRepair dflt (some (.int (timeoutRepair dflt v))) = timeoutRepair dflt v := by
  obtain ⟨g1, g2⟩ := timeoutRepair_bounds dflt v h1 h2
  set w := timeoutRepair dflt v with hw
  have c1 : (300 : ℚ) ≤ toQ (.int w) := by
    simp only [toQ]
    exact_mod_cast g1
  have c2 : toQ (.int w) ≤ 360 := by
    simp only [toQ]
    exact_mod_cast g2
  have hcond : isNum (.int w) = true ∧ 300 ≤ toQ (.int w) ∧ toQ (.int w) ≤ 360 :=
    ⟨rfl, c1, c2⟩
  show timeoutRepair dflt (some (.int w)) = w
  simp only [timeoutRepair]
  rw [if_pos hcond]
  simp [toQ, truncQ_intCast]

theorem dictOrEmpty_idem (v : Option PyVal) :
    dictOrEmpty (some (dictOrEmpty v)) = dictOrEmpty v := by
  rcases v with _ | x
  · rfl
  · cases x <;> rfl

theorem bootstrapBucket_idem (v : Option PyVal) :
    bootstrapBucket (some (bootstrapBucket v)) = bootstrapBucket v := by
  simp [bootstrapBucket, getv, dictOf, dget, dictOrEmpty_idem]
/-- The invariant of a repaired pool entry: every later repair pass leaves
it unchanged. -/
def specOK (tempHi : ℚ) (f : SpecFields) : Prop :=
  (∃ s, f.cost_tier = .str s ∧ pyLower (pyStrip s) ∈ COST_TIERS) ∧
  (∃ s, f.provider = .str s ∧ s ∈ PROVIDERS) ∧
  (∃ s, f.provider_model = .str s ∧ pyStrip s = s ∧ s ≠ "") ∧
  (∃ pl t, f.params = .dict pl ∧ dget pl "temperature" = some (.float t) ∧ 0 ≤ t ∧ t ≤ tempHi)

theorem providers_norm : ∀ s ∈ PROVIDERS, pyLower (pyStrip s) = s := by decide

theorem specOK_m1 : specOK 1 m1_defaults :=
  ⟨⟨"mid", rfl, by decide⟩, ⟨"gemini", rfl, by decide⟩,
   ⟨"gemini-2.5-pro", rfl, by decide, by decide⟩,
   ⟨[("temperature", .float 0)], 0, rfl, by decide, le_refl 0, by norm_num⟩⟩

theorem specOK_m2 : specOK 1 m2_defaults :=
  ⟨⟨"mid", rfl, by decide⟩, ⟨"anthropic", rfl, by decide⟩,
   ⟨"claude-sonnet-4-5-20250929", rfl, by decide, by decide⟩,
   ⟨[("temperature", .float 0)], 0, rfl, by decide, le_refl 0, by norm_num⟩⟩

theorem specOK_c1 : specOK 2 c1_defaults :=
  ⟨⟨"mid", rfl, by decide⟩, ⟨"openai", rfl, by decide⟩,
   ⟨"gpt-4.1", rfl, by decide, by decide⟩,
   ⟨[("temperature", .float 0)], 0, rfl, by decide, le_refl 0, by norm_num⟩⟩

theorem repairSpec_ok (defs : SpecFields) (hi : ℚ) (x : Option PyVal)
    (hdefs : specOK hi defs) (h0 : 0 ≤ hi) : specOK hi (repairSpec defs hi x) := by
  rcases x with _ | y
  · exact hdefs
  · cases y with
    | dict d =>
        simp only [repairSpec]
        refine ⟨?_, ?_, ?_, ?_⟩
        · rcases hct : dget d "cost_tier" with _ | z
          · simpa [hct] using hdefs.1
          · cases z with
            | str s =>
                by_cases hm : pyLower (pyStrip s) ∈ COST_TIERS
                · exact ⟨s, by simp [hct, hm], hm⟩
                · simpa [hct, hm] using hdefs.1
            | none => simpa [hct] using hdefs.1
            | bool b => simpa [hct] using hdefs.1
            | int n => simpa [hct] using hdefs.1
            | float q => simpa [hct] using hdefs.1
            | list l => simpa [hct] using hdefs.1
            | dict l => simpa [hct] using hdefs.1
        · rcases hct : dget d "provider" with _ | z
          · simpa [hct] using hdefs.2.1
          · cases z with
            | str s =>
                by_cases hm : pyLower (pyStrip s) ∈ PROVIDERS
                · exact ⟨pyLower (pyStrip s), by simp [hct, hm], hm⟩
                · simpa [hct, hm] using hdefs.2.1
            | none => simpa [hct] using hdefs.2.1
            | bool b => simpa [hct] using hdefs.2.1
            | int n => simpa [hct] using hdefs.2.1
            | float q => simpa [hct] using hdefs.2.1
            | list l => simpa [hct] using hdefs.2.1
            | dict l => simpa [hct] using hdefs.2.1
        · rcases hct : dget d "provider_model" with _ | z
          · simpa [hct] using hdefs.2.2.1
          · cases z with
            | str s =>
                by_cases hm : pyStrip s = ""
                · simpa [hct, hm] using hdefs.2.2.1
                · refine ⟨pyStrip s, by simp [hct, hm], pyStrip_idem s, ?_⟩
                  intro he
                  exact hm (by rw [← pyStrip_idem s, he]; rfl)
            | none => simpa [hct] using hdefs.2.2.1
            | bool b => simpa [hct] using hdefs.2.2.1
            | int n => simpa [hct] using hdefs.2.2.1
            | float q => simpa [hct] using hdefs.2.2.1
            | list l => simpa [hct] using hdefs.2.2.1
            | dict l => simpa [hct] using hdefs.2.2.1
        · rcases hpar : dget d "params" with _ | z
          · refine ⟨dset [] "temperature" (.float (clampNumQ 0 hi 0 (dget [] "temperature"))),
              clampNumQ 0 hi 0 (dget [] "temperature"), by simp [hpar], ?_, ?_, ?_⟩
            · exact dget_dset_self _ _ _
            · exact (clampNumQ_mem 0 hi 0 _ (le_refl 0) h0).1
            · exact (clampNumQ_mem 0 hi 0 _ (le_refl 0) h0).2
          · cases z with
            | dict pl =>
                refine ⟨dset pl "temperature" (.float (clampNumQ 0 hi 0 (dget pl "temperature"))),
                  clampNumQ 0 hi 0 (dget pl "temperature"), by simp [hpar], ?_, ?_, ?_⟩
                · exact dget_dset_self _ _ _
                · exact (clampNumQ_mem 0 hi 0 _ (le_refl 0) h0).1
                · exact (clampNumQ_mem 0 hi 0 _ (le_refl 0) h0).2
            | none =>
                refine ⟨dset [] "temperature" (.float (clampNumQ 0 hi 0 (dget [] "temperature"))),
                  clampNumQ 0 hi 0 (dget [] "temperature"), by simp [hpar], dget_dset_self _ _ _,
                  (clampNumQ_mem 0 hi 0 _ (le_refl 0) h0).1,
                  (clampNumQ_mem 0 hi 0 _ (le_refl 0) h0).2⟩
            | bool b =>
                refine ⟨dset [] "temperature" (.float (clampNumQ 0 hi 0 (dget [] "temperature"))),
                  clampNumQ 0 hi 0 (dget [] "temperature"), by simp [hpar], dget_dset_self _ _ _,
                  (clampNumQ_mem 0 hi 0 _ (le_refl 0) h0).1,
                  (clampNumQ_mem 0 hi 0 _ (le_refl 0) h0).2⟩
            | int n =>
                refine ⟨dset [] "temperature" (.float (clampNumQ 0 hi 0 (dget [] "temperature"))),
                  clampNumQ 0 hi 0 (dget [] "temperature"), by simp [hpar], dget_dset_self _ _ _,
                  (clampNumQ_mem 0 hi 0 _ (le_refl 0) h0).1,
                  (clampNumQ_mem 0 hi 0 _ (le_refl 0) h0).2⟩
            | float q =>
                refine ⟨dset [] "temperature" (.float (clampNumQ 0 hi 0 (dget [] "temperature"))),
                  clampNumQ 0 hi 0 (dget [] "temperature"), by simp [hpar], dget_dset_self _ _ _,
                  (clampNumQ_mem 0 hi 0 _ (le_refl 0) h0).1,
                  (clampNumQ_mem 0 hi 0 _ (le_refl 0) h0).2⟩
            | str s =>
                refine ⟨dset [] "temperature" (.float (clampNumQ 0 hi 0 (dget [] "temperature"))),
                  clampNumQ 0 hi 0 (dget [] "temperature"), by simp [hpar], dget_dset_self _ _ _,
                  (clampNumQ_mem 0 hi 0 _ (le_refl 0) h0).1,
                  (clampNumQ_mem 0 hi 0 _ (le_refl 0) h0).2⟩
            | list l =>
                refine ⟨dset [] "temperature" (.float (clampNumQ 0 hi 0 (dget [] "temperature"))),
                  clampNumQ 0 hi 0 (dget [] "temperature"), by simp [hpar], dget_dset_self _ _ _,
                  (clampNumQ_mem 0 hi 0 _ (le_refl 0) h0).1,
                  (clampNumQ_mem 0 hi 0 _ (le_refl 0) h0).2⟩
    | none => exact hdefs
    | bool b => exact hdefs
    | int n => exact hdefs
    | float q => exact hdefs
    | str s => exact hdefs
    | list l => exact hdefs

theorem repairSpec_fix (defs : SpecFields) (hi : ℚ) (f : SpecFields)
    (hok : specOK hi f) (l : List (String × PyVal))
    (h1 : dget l "label" = some f.label)
    (h2 : dget l "cost_tier" = some f.cost_tier)
    (h3 : dget l "provider" = some f.provider)
    (h4 : dget l "provider_model" = some f.provider_model)
    (h5 : dget l "params" = some f.params) :
    repairSpec defs hi (some (.dict l)) = f := by
  obtain ⟨⟨sc, hc1, hc2⟩, ⟨sp, hp1, hp2⟩, ⟨sm, hm1, hm2, hm3⟩, ⟨pl, t, hq1, hq2, hq3, hq4⟩⟩ :=
    hok
  obtain ⟨fl, fc, fp, fm, fpar⟩ := f
  simp only at hc1 hp1 hm1 hq1
  subst hc1; subst hp1; subst hm1; subst hq1
  simp only [repairSpec, h1, h2, h3, h4, h5]
  have e2 : (if pyLower (pyStrip sc) ∈ COST_TIERS then PyVal.str sc else defs.cost_tier) =
      .str sc := by rw [if_pos hc2]
  have hplow : pyLower (pyStrip sp) = sp := providers_norm sp hp2
  have e3 : (if pyLower (pyStrip sp) ∈ PROVIDERS then PyVal.str (pyLower (pyStrip sp))
      else defs.provider) = .str sp := by
    rw [hplow, if_pos hp2]
  have e4 : (if pyStrip sm = "" then defs.provider_model else PyVal.str (pyStrip sm)) =
      .str sm := by
    rw [if_neg (by rw [hm2]; exact hm3), hm2]
  have e5 : PyVal.dict (dset pl "temperature"
      (.float (clampNumQ 0 hi 0 (dget pl "temperature")))) = .dict pl := by
    rw [hq2, clampNumQ_float_id 0 hi 0 t hq3 hq4, dset_dget_id pl "temperature" _ hq2]
  rw [e2, e3, e4, e5]
  rfl

theorem dget_specToDictModel (f : SpecFields) :
    dget (dictOf (specToDictModel f)) "label" = some f.label ∧
    dget (dictOf (specToDictModel f)) "cost_tier" = some f.cost_tier ∧
    dget (dictOf (specToDictModel f)) "provider" = some f.provider ∧
    dget (dictOf (specToDictModel f)) "provider_model" = some f.provider_model ∧
    dget (dictOf (specToDictModel f)) "params" = some f.params := by
  refine ⟨?_, ?_, ?_, ?_, ?_⟩ <;> simp [specToDictModel, dictOf, dget]

theorem dget_specToDictChairman (f : SpecFields) :
    dget (dictOf (specToDictChairman f)) "label" = some f.label ∧
    dget (dictOf (specToDictChairman f)) "cost_tier" = some f.cost_tier ∧
    dget (dictOf (specToDictChairman f)) "provider" = some f.provider ∧
    dget (dictOf (specToDictChairman f)) "provider_model" = some f.provider_model ∧
    dget (dictOf (specToDictChairman f)) "params" = some f.params := by
  refine ⟨?_, ?_, ?_, ?_, ?_⟩ <;> simp [specToDictChairman, dictOf, dget]

theorem repairSpec_fix_model (defs : SpecFields) (hi : ℚ) (f : SpecFields)
    (hok : specOK hi f) : repairSpec defs hi (some (specToDictModel f)) = f := by
  obtain ⟨g1, g2, g3, g4, g5⟩ := dget_specToDictModel f
  have : specToDictModel f = .dict (dictOf (specToDictModel f)) := rfl
  rw [this]
  exact repairSpec_fix defs hi f hok _ g1 g2 g3 g4 g5

theorem repairSpec_fix_chairman (defs : SpecFields) (hi : ℚ) (f : SpecFields)
    (hok : specOK hi f) : repairSpec defs hi (some (specToDictChairman f)) = f := by
  obtain ⟨g1, g2, g3, g4, g5⟩ := dget_specToDictChairman f
  have : specToDictChairman f = .dict (dictOf (specToDictChairman f)) := rfl
  rw [this]
  exact repairSpec_fix defs hi f hok _ g1 g2 g3 g4 g5
theorem listOrEmpty_idem (v : Option PyVal) :
    listOrEmpty (some (listOrEmpty v)) = listOrEmpty v := by
  rcases v with _ | x
  · rfl
  · cases x <;> rfl

theorem mem_mkdirFS_self (p : PathA) (fs : DirFS) : p ∈ mkdirFS p fs := by
  unfold mkdirFS
  by_cases h : p ∈ fs
  · rw [if_pos h]; exact h
  · rw [if_neg h]; exact List.mem_cons_self p fs

theorem mem_mkdirFS_of_mem (p q : PathA) (fs : DirFS) (h : q ∈ fs) : q ∈ mkdirFS p fs := by
  unfold mkdirFS
  by_cases h2 : p ∈ fs
  · rw [if_pos h2]; exact h
  · rw [if_neg h2]; exact List.mem_cons_of_mem p h

theorem cleanPath_append_code (root : PathA) (h : cleanPath root = true) :
    cleanPath (root ++ ["code"]) = true := by
  unfold cleanPath at *
  rw [List.all_append, h]
  decide

theorem baseOfDs_clean (dsl : List (String × PyVal)) (root cwd : PathA) (fs : DirFS)
    (hroot : cleanPath root = true) (hcwd : cleanPath cwd = true) :
    cleanPath (baseOfDs dsl root cwd fs) = true := by
  unfold baseOfDs
  by_cases h1 : (match dget dsl "base_path" with
    | some (.str s) => pyStrip s
    | _ => "") = ""
  · rw [if_pos h1]
    exact cleanPath_append_code root hroot
  · rw [if_neg h1]
    by_cases h2 : resolveStr cwd (match dget dsl "base_path" with
      | some (.str s) => pyStrip s
      | _ => "") ∈ fs
    · rw [if_pos h2]
      exact resolveStr_clean cwd _ hcwd
    · rw [if_neg h2]
      exact cleanPath_append_code root hroot

theorem baseOfDs_fix (B : PathA) (root cwd : PathA) (fs2 : DirFS)
    (l2 : List (String × PyVal))
    (hget : dget l2 "base_path" = some (.str (pathToStr B)))
    (htrim : pyStrip (pathToStr B) = pathToStr B)
    (hclean : cleanPath B = true)
    (hmem : B ∈ fs2) :
    baseOfDs l2 root cwd fs2 = B := by
  unfold baseOfDs
  rw [hget]
  simp only [htrim]
  rw [if_neg (pathToStr_ne_empty B)]
  rw [resolveStr_pathToStr cwd B hclean]
  rw [if_pos hmem]

theorem dirNodeFor_fix (dsl l2 : List (String × PyVal)) (base : PathA) (model : String)
    (hget : dget l2 model = some (dirNodeFor dsl base model)) :
    dirNodeFor l2 base model = dirNodeFor dsl base model := by
  conv_rhs => rw [show dirNodeFor dsl base model = PyVal.dict
    [("path", .str (pathToStr (base ++ [model]))),
     ("dirs", dictOrEmpty (dget (dictOf (getv (dget dsl model))) "dirs")),
     ("files", listOrEmpty (dget (dictOf (getv (dget dsl model))) "files"))] from rfl]
  rw [show dirNodeFor dsl base model = PyVal.dict
    [("path", .str (pathToStr (base ++ [model]))),
     ("dirs", dictOrEmpty (dget (dictOf (getv (dget dsl model))) "dirs")),
     ("files", listOrEmpty (dget (dictOf (getv (dget dsl model))) "files"))] from rfl] at hget
  simp only [dirNodeFor, hget, getv, Option.getD, dictOf]
  simp only [dget]
  norm_num
  exact ⟨dictOrEmpty_idem _, listOrEmpty_idem _⟩
theorem roleCellsRepair_fix (rms l2 : List (String × PyVal)) (role : String)
    (hget : dget l2 role = some (roleCellsRepair rms role)) :
    roleCellsRepair l2 role = roleCellsRepair rms role := by
  conv_rhs => rw [show roleCellsRepair rms role = PyVal.dict
    [("M1", repair_cell (getv (dget (dictOf (getv (dget rms role))) "M1"))),
     ("M2", repair_cell (getv (dget (dictOf (getv (dget rms role))) "M2")))] from rfl]
  rw [show roleCellsRepair rms role = PyVal.dict
    [("M1", repair_cell (getv (dget (dictOf (getv (dget rms role))) "M1"))),
     ("M2", repair_cell (getv (dget (dictOf (getv (dget rms role))) "M2")))] from rfl] at hget
  simp only [roleCellsRepair, hget, getv, Option.getD, dictOf]
  simp only [dget]
  norm_num
  exact ⟨repair_cell_idem _, repair_cell_idem _⟩
theorem clampNumQ_idem (lo hi dflt : ℚ) (v : Option PyVal) (h1 : lo ≤ dflt)
    (h2 : dflt ≤ hi) :
    clampNumQ lo hi dflt (some (.float (clampNumQ lo hi dflt v))) = clampNumQ lo hi dflt v :=
  clampNumQ_float_id lo hi dflt _ (clampNumQ_mem lo hi dflt v h1 h2).1
    (clampNumQ_mem lo hi dflt v h1 h2).2

set_option maxHeartbeats 1000000

theorem repair_memory_idem (m : PyVal) (fr fr2 : Bool) (root cwd : PathA) (fs : DirFS)
    (hroot : cleanPath root = true) (hcwd : cleanPath cwd = true)
    (hbase : pyStrip (pathToStr (repairedBase m root cwd fs)) =
      pathToStr (repairedBase m root cwd fs)) :
    (repair_memory (repair_memory m fr root cwd fs).1 fr2 root cwd
        (repair_memory m fr root cwd fs).2).1 = (repair_memory m fr root cwd fs).1 := by
  set md := dictOf m with hmd
  set dsl := dictOf (getv (dget md "directory_structure")) with hdsl
  set B := baseOfDs dsl root cwd fs with hB
  have hBtrim : pyStrip (pathToStr B) = pathToStr B := hbase
  have hBclean : cleanPath B = true := baseOfDs_clean dsl root cwd fs hroot hcwd
  have hfst : (repair_memory m fr root cwd fs).1 = PyVal.dict
    [("current_run_id", runIdRepair "run_000001" (dget md "current_run_id")),
     ("last_run_id", runIdRepair "run_000000" (dget md "last_run_id")),
     ("weighted_inputs", calculate_weights (getv (dget md "weighted_inputs"))),
     ("model_pool", .dict
        [("M1", specToDictModel (repairSpec m1_defaults 1
            (dget (dictOf (getv (dget md "model_pool"))) "M1"))),
         ("M2", specToDictModel (repairSpec m2_defaults 1
            (dget (dictOf (getv (dget md "model_pool"))) "M2")))]),
     ("chairman_pool", .dict
        [("C1", specToDictChairman (repairSpec c1_defaults 2
            (dget (dictOf (getv (dget md "chairman_pool"))) "C1")))]),
     ("chairman_active", chairmanActiveRepair (dget md "chairman_active")),
     ("role_model_stats", .dict
        [("architect", roleCellsRepair (dictOf (getv (dget md "role_model_stats")))
            "architect"),
         ("implementer", roleCellsRepair (dictOf (getv (dget md "role_model_stats")))
            "implementer")]),
     ("routing_policy", .dict
        [("ucb_c", .float (clampNumQ 0 1 (1/2)
            (dget (dictOf (getv (dget md "routing_policy"))) "ucb_c"))),
         ("cost_penalty", .float (clampNumQ 0 1 (2/5)
            (dget (dictOf (getv (dget md "routing_policy"))) "cost_penalty")))]),
     ("exploration", .dict
        [("warmup_runs", .int (warmupRepair
            (dget (dictOf (getv (dget md "exploration"))) "warmup_runs"))),
         ("runs_completed", .int (runsCompletedRepair
            (dget (dictOf (getv (dget md "exploration"))) "runs_completed")))]),
     ("chairman_summary_store", .dict
        [("bootstrap", bootstrapBucket
            (dget (dictOf (getv (dget md "chairman_summary_store"))) "bootstrap")),
         ("iterate", dictOrEmpty
            (dget (dictOf (getv (dget md "chairman_summary_store"))) "iterate"))]),
     ("timeout_defaults", .dict
        [("run_agents_timeout_s", .int (timeoutRepair 300
            (dget (dictOf (getv (dget md "timeout_defaults"))) "run_agents_timeout_s"))),
         ("chairman_timeout_s", .int (timeoutRepair 360
            (dget (dictOf (getv (dget md "timeout_defaults"))) "chairman_timeout_s")))]),
     ("directory_structure", .dict
        [("base_path", .str (pathToStr B)),
         ("M1", dirNodeFor dsl B "M1"),
         ("M2", dirNodeFor dsl B "M2")]),
     ("final_model", finalModelRepair (dget md "final_model")),
     ("chairman_edits", .dict
        [("bootstrap", bootstrapBucket
            (dget (dictOf (getv (dget md "chairman_edits"))) "bootstrap")),
         ("iterate", dictOrEmpty
            (dget (dictOf (getv (dget md "chairman_edits"))) "iterate"))])] := rfl
  have hsnd : (repair_memory m fr root cwd fs).2 =
      mkdirFS (B ++ ["M2"]) (mkdirFS (B ++ ["M1"]) (mkdirFS B fs)) := rfl
  rw [hfst, hsnd]
  simp only [repair_memory, dictOf]
  simp only [dget]
  simp only [String.reduceEq, reduceIte]
  norm_num
  have hmem2 : B ∈ mkdirFS (B ++ ["M2"]) (mkdirFS (B ++ ["M1"]) (mkdirFS B fs)) :=
    mem_mkdirFS_of_mem _ _ _ (mem_mkdirFS_of_mem _ _ _ (mem_mkdirFS_self B fs))
  refine ⟨?_, ?_, ?_, ⟨?_, ?_⟩, ?_, ?_, ⟨?_, ?_⟩, ⟨?_, ?_⟩, ⟨?_, ?_⟩, ⟨?_, ?_⟩,
    ⟨?_, ?_⟩, ⟨?_, ?_, ?_⟩, ?_, ?_, ?_⟩
  · exact runIdRepair_idem "run_000001" (by decide) _
  · exact runIdRepair_idem "run_000000" (by decide) _
  · exact calculate_weights_idem _
  · exact congrArg specToDictModel (repairSpec_fix_model m1_defaults 1 _
      (repairSpec_ok m1_defaults 1 _ specOK_m1 (by norm_num)))
  · exact congrArg specToDictModel (repairSpec_fix_model m2_defaults 1 _
      (repairSpec_ok m2_defaults 1 _ specOK_m2 (by norm_num)))
  · exact congrArg specToDictChairman (repairSpec_fix_chairman c1_defaults 2 _
      (repairSpec_ok c1_defaults 2 _ specOK_c1 (by norm_num)))
  · exact chairmanActiveRepair_idem _
  · exact roleCellsRepair_fix _ _ _ (by simp [dget])
  · exact roleCellsRepair_fix _ _ _ (by simp [dget])
  · exact clampNumQ_idem 0 1 (1/2) _ (by norm_num) (by norm_num)
  · exact clampNumQ_idem 0 1 (2/5) _ (by norm_num) (by norm_num)
  · exact warmupRepair_idem _
  · exact runsCompletedRepair_idem _
  · exact bootstrapBucket_idem _
  · exact dictOrEmpty_idem _
  · exact timeoutRepair_idem 300 _ (by norm_num) (by norm_num)
  · exact timeoutRepair_idem 360 _ (by norm_num) (by norm_num)
  · exact congrArg pathToStr (baseOfDs_fix B root cwd _ _ (by simp [dget]) hBtrim
      hBclean hmem2)
  · show dirNodeFor
        [("base_path", PyVal.str (pathToStr B)), ("M1", dirNodeFor dsl B "M1"),
         ("M2", dirNodeFor dsl B "M2")]
        (baseOfDs
          [("base_path", PyVal.str (pathToStr B)), ("M1", dirNodeFor dsl B "M1"),
           ("M2", dirNodeFor dsl B "M2")]
          root cwd (mkdirFS (B ++ ["M2"]) (mkdirFS (B ++ ["M1"]) (mkdirFS B fs)))) "M1" =
      dirNodeFor dsl B "M1"
    rw [baseOfDs_fix B root cwd _ _ (by simp [dget]) hBtrim hBclean hmem2]
    exact dirNodeFor_fix dsl _ B "M1" (by simp [dget])
  · show dirNodeFor
        [("base_path", PyVal.str (pathToStr B)), ("M1", dirNodeFor dsl B "M1"),
         ("M2", dirNodeFor dsl B "M2")]
        (baseOfDs
          [("base_path", PyVal.str (pathToStr B)), ("M1", dirNodeFor dsl B "M1"),
           ("M2", dirNodeFor dsl B "M2")]
          root cwd (mkdirFS (B ++ ["M2"]) (mkdirFS (B ++ ["M1"]) (mkdirFS B fs)))) "M2" =
      dirNodeFor dsl B "M2"
    rw [baseOfDs_fix B root cwd _ _ (by simp [dget]) hBtrim hBclean hmem2]
    exact dirNodeFor_fix dsl _ B "M2" (by simp [dget])
  · exact finalModelRepair_idem _
  · exact bootstrapBucket_idem _
  · exact dictOrEmpty_idem _

/-! ### Claim C1 — repair idempotence -/

set_option maxRecDepth 100000

def c1cex_mem : PyVal :=
  .dict [("directory_structure", .dict [("base_path", .str "/tmp/x /")])]

def c1cex_root : PathA := ["root"]

def c1cex_cwd : PathA := ["cw"]

def c1cex_fs : DirFS := [["tmp", "x "]]

def c1cex_pass1 : PyVal × DirFS :=
  repair_memory c1cex_mem false c1cex_root c1cex_cwd c1cex_fs

def c1cex_pass2 : PyVal × DirFS :=
  repair_memory c1cex_pass1.1 false c1cex_root c1cex_cwd c1cex_pass1.2

/-- **C1** (counterexample).  Repair is *not* byte-idempotent on every JSON
value: a stored `base_path` whose final directory component ends in a space
(legal on POSIX, here `/tmp/x ` recorded as `"/tmp/x /"`) survives the first
repair — the trailing `/` protects the space from `strip()` and the
directory exists — but the second repair's `strip()` removes the trailing
space, the resulting `/tmp/x` does not exist, and the base falls back to
`root/code`.  The two sorted-keys serialisations differ. -/
theorem c1_repair_not_idempotent :
    encodeSorted 8 c1cex_pass2.1 ≠ encodeSorted 8 c1cex_pass1.1 := by decide

/-- **C1** (amended).  Memory repair is idempotent — serialising
`repair(repair(v))` with sorted keys is byte-identical to serialising
`repair(v)` — for every JSON value `v`, `first_run` flag and workspace
root, *provided* the base-path string recorded by the first repair is
whitespace-trimmed (true of every realistic workspace; the counterexample
above shows the proviso is necessary).  `root`/`cwd` are resolved paths. -/
theorem c1_repair_idempotent (m : PyVal) (fr fr2 : Bool) (root cwd : PathA)
    (fs : DirFS) (fuel : ℕ) (hroot : cleanPath root = true)
    (hcwd : cleanPath cwd = true)
    (hbase : pyStrip (pathToStr (repairedBase m root cwd fs)) =
      pathToStr (repairedBase m root cwd fs)) :
    (repair_memory (repair_memory m fr root cwd fs).1 fr2 root cwd
        (repair_memory m fr root cwd fs).2).1 = (repair_memory m fr root cwd fs).1 ∧
    encodeSorted fuel (repair_memory (repair_memory m fr root cwd fs).1 fr2 root cwd
        (repair_memory m fr root cwd fs).2).1 =
      encodeSorted fuel (repair_memory m fr root cwd fs).1 := by
  have h := repair_memory_idem m fr fr2 root cwd fs hroot hcwd hbase
  exact ⟨h, congrArg (encodeSorted fuel) h⟩

/-- Witness for C1 at a concrete input. -/
theorem c1_repair_idempotent_witness :
    (cleanPath ["ws"] = true ∧ cleanPath ["ws"] = true ∧
      pyStrip (pathToStr (repairedBase (.dict []) ["ws"] ["ws"] [])) =
        pathToStr (repairedBase (.dict []) ["ws"] ["ws"] [])) ∧
    ((repair_memory (repair_memory (.dict []) true ["ws"] ["ws"] []).1 false ["ws"] ["ws"]
        (repair_memory (.dict []) true ["ws"] ["ws"] []).2).1 =
      (repair_memory (.dict []) true ["ws"] ["ws"] []).1 ∧
    encodeSorted 8 (repair_memory (repair_memory (.dict []) true ["ws"] ["ws"] []).1 false
        ["ws"] ["ws"] (repair_memory (.dict []) true ["ws"] ["ws"] []).2).1 =
      encodeSorted 8 (repair_memory (.dict []) true ["ws"] ["ws"] []).1) :=
  ⟨⟨by decide, by decide, by decide⟩,
   c1_repair_idempotent (.dict []) true false ["ws"] ["ws"] [] 8
     (by decide) (by decide) (by decide)⟩

/-! ### Claim C10 — the repaired pools are exactly the built-in defaults -/

/-- **C10**.  For every input memory record, the repaired memory's
`model_pool` has exactly the key set `{M1, M2}`, its `chairman_pool`
exactly `{C1}`, and `role_model_stats` is keyed by exactly
`{architect, implementer} × {M1, M2}`: any additional model or chairman
entry in the stored record is discarded, so the bandit can never learn
about a model outside the built-in defaults. -/
theorem c10_pools_are_builtin (m : PyVal) (fr : Bool) (root cwd : PathA) (fs : DirFS) :
    dkeys (getv (dget (dictOf (repair_memory m fr root cwd fs).1) "model_pool")) =
        ["M1", "M2"] ∧
    dkeys (getv (dget (dictOf (repair_memory m fr root cwd fs).1) "chairman_pool")) =
        ["C1"] ∧
    dkeys (getv (dget (dictOf (repair_memory m fr root cwd fs).1) "role_model_stats")) =
        ["architect", "implementer"] ∧
    dkeys (getv (dget (dictOf (getv (dget (dictOf (repair_memory m fr root cwd fs).1)
        "role_model_stats"))) "architect")) = ["M1", "M2"] ∧
    dkeys (getv (dget (dictOf (getv (dget (dictOf (repair_memory m fr root cwd fs).1)
        "role_model_stats"))) "implementer")) = ["M1", "M2"] := by
  refine ⟨?_, ?_, ?_, ?_, ?_⟩ <;>
    simp [repair_memory, dget, dictOf, dkeys, getv, roleCellsRepair]

/-! ### Claim C2 — bandit update (`der/orchestration/chairman.py:159-209,473-487`)

`calculate_stats` is embedded over the stored (PyVal) cell; its result
carries the recomputed UCB, a real number (`math.sqrt` / `math.log` are
`Real.sqrt` / `Real.log`; float arithmetic is exact as everywhere else).
The rational division `/ n_new` agrees with Python for `n_new ≠ 0`; the
claim's hypotheses guarantee `n_new = k + 1 ≥ 1`. -/

structure StatsCell where
  n : ℤ
  mean_reward : ℚ
  mean_cost : ℚ
  last_used_run_id : PyVal
  ucb : ℝ

theorem StatsCell.ext_iff2 (a b : StatsCell) :
    a = b ↔ a.n = b.n ∧ a.mean_reward = b.mean_reward ∧ a.mean_cost = b.mean_cost ∧
      a.last_used_run_id = b.last_used_run_id ∧ a.ucb = b.ucb := by
  constructor
  · intro h; rw [h]; exact ⟨rfl, rfl, rfl, rfl, rfl⟩
  · intro ⟨h1, h2, h3, h4, h5⟩
    cases a; cases b
    simp only at h1 h2 h3 h4 h5
    simp [h1, h2, h3, h4, h5]

/-- `chairman.py:159-209` `calculate_stats`. -/
noncomputable def calculate_stats (model_stats : PyVal) (total_runs : ℤ)
    (routing_policy : PyVal) (scoring : PyVal) : StatsCell :=
  let msd := dictOf model_stats
  let n : ℤ :=
    match dget msd "n" with
    | some x => if isNum x then truncQ (toQ x) else 0
    | Option.none => 0
  let n_new := n + 1
  let judge_score : ℚ :=
    match dget (dictOf scoring) "judge_score" with
    | some x => if isNum x ∧ 0 ≤ toQ x ∧ toQ x ≤ 1 then toQ x else 0
    | Option.none => 0
  let mean_reward := clampNumQ 0 1 0 (dget msd "mean_reward")
  let mean_reward_new := mean_reward + (judge_score - mean_reward) / n_new
  let cost_score : ℚ :=
    match dget (dictOf scoring) "cost_score" with
    | some x => if isNum x ∧ 0 ≤ toQ x ∧ toQ x ≤ 1 then toQ x else 1/2
    | Option.none => 1/2
  let mean_cost := clampNumQ 0 1 0 (dget msd "mean_cost")
  let mean_cost_new := mean_cost + (cost_score - mean_cost) / n_new
  let cost_penalty := clampNumQ 0 1 (2/5) (dget (dictOf routing_policy) "cost_penalty")
  let ucb_c := clampNumQ 0 1 (1/2) (dget (dictOf routing_policy) "ucb_c")
  let ucb : ℝ := (mean_reward_new : ℝ) - (cost_penalty : ℝ) * (mean_cost_new : ℝ) +
    (ucb_c : ℝ) * Real.sqrt (Real.log ((max total_runs 2 : ℤ) : ℝ) / ((max n_new 1 : ℤ) : ℝ))
  { n := n_new, mean_reward := mean_reward_new, mean_cost := mean_cost_new,
    last_used_run_id := getv (dget msd "last_used_run_id"), ucb := ucb }

/-- `chairman.py:481` — `total_runs`: the sum of `n` over all cells of the
role (dict cells with a numeric `n`; others contribute nothing) plus one. -/
def total_runs_of (role_models : List (String × PyVal)) : ℤ :=
  (role_models.map (fun kv =>
    match kv.2 with
    | .dict cd =>
        match dget cd "n" with
        | some x => if isNum x then truncQ (toQ x) else 0
        | Option.none => 0
    | _ => 0)).sum + 1

/-- `chairman.py:473-487` — one bandit-cell update inside `chairman_merge`:
fetch the cell, stamp `last_used_run_id` with the current run id, compute
`total_runs` over the role's cells, and apply `calculate_stats`. -/
noncomputable def update_role_cell (role_models : List (String × PyVal))
    (model_id run_id : String) (routing_policy scoring : PyVal) : StatsCell :=
  let role_model := dictOf (getv (dget role_models model_id))
  let role_model2 := dset role_model "last_used_run_id" (.str run_id)
  calculate_stats (.dict role_model2) (total_runs_of role_models) routing_policy scoring

/-- **C2**.  For every bandit cell `{n = k ≥ 0, mean_reward = r,
mean_cost = c}` and observation `{judge_score = j, cost_score = q}` with
all of `r, c, j, q` and the routing weights in `[0,1]`, the updated cell
has `n = k+1`, `mean_reward = r + (j−r)/(k+1)`, `mean_cost = c +
(q−c)/(k+1)`, `last_used_run_id` equal to the current run id, and
`ucb = mean_reward' − cost_penalty·mean_cost' +
ucb_c·√(ln(max(totalRuns,2)) / max(k+1,1))` where `totalRuns` is the sum
of `n` over all cells of the role plus one. -/
theorem c2_bandit_update (cells : List (String × PyVal)) (model_id run_id : String)
    (k : ℤ) (r c j q uc cp : ℚ) (lur ucbOld : PyVal)
    (hcell : dget cells model_id = some (.dict
      [("n", .int k), ("mean_reward", .float r), ("mean_cost", .float c),
       ("last_used_run_id", lur), ("ucb", ucbOld)]))
    (hk : 0 ≤ k) (hr1 : 0 ≤ r) (hr2 : r ≤ 1) (hc1 : 0 ≤ c) (hc2 : c ≤ 1)
    (hj1 : 0 ≤ j) (hj2 : j ≤ 1) (hq1 : 0 ≤ q) (hq2 : q ≤ 1)
    (huc1 : 0 ≤ uc) (huc2 : uc ≤ 1) (hcp1 : 0 ≤ cp) (hcp2 : cp ≤ 1) :
    update_role_cell cells model_id run_id
        (.dict [("ucb_c", .float uc), ("cost_penalty", .float cp)])
        (.dict [("judge_score", .float j), ("cost_score", .float q)]) =
      { n := k + 1,
        mean_reward := r + (j - r) / (k + 1),
        mean_cost := c + (q - c) / (k + 1),
        last_used_run_id := .str run_id,
        ucb := ((r + (j - r) / (k + 1) : ℚ) : ℝ) -
          (cp : ℝ) * ((c + (q - c) / (k + 1) : ℚ) : ℝ) +
          (uc : ℝ) * Real.sqrt (Real.log ((max (total_runs_of cells) 2 : ℤ) : ℝ) /
            ((max (k + 1) 1 : ℤ) : ℝ)) } := by
  simp only [update_role_cell]
  rw [hcell]
  have hdset : dset (dictOf (getv (some (PyVal.dict
      [("n", .int k), ("mean_reward", .float r), ("mean_cost", .float c),
       ("last_used_run_id", lur), ("ucb", ucbOld)]))))
      "last_used_run_id" (.str run_id) =
      [("n", .int k), ("mean_reward", .float r), ("mean_cost", .float c),
       ("last_used_run_id", .str run_id), ("ucb", ucbOld)] := by
    simp [getv, dictOf, dset]
  rw [hdset]
  simp only [calculate_stats]
  rw [StatsCell.ext_iff2]
  refine ⟨?_, ?_, ?_, ?_, ?_⟩
  · simp only [dictOf, dget]
    simp only [String.reduceEq, reduceIte]
    simp [isNum, toQ, truncQ_intCast]
  · simp only [dictOf, dget]
    simp only [String.reduceEq, reduceIte]
    simp [isNum, toQ, truncQ_intCast, clampNumQ_float_id 0 1 0 r hr1 hr2, hj1, hj2]
  · simp only [dictOf, dget]
    simp only [String.reduceEq, reduceIte]
    simp [isNum, toQ, truncQ_intCast, clampNumQ_float_id 0 1 0 c hc1 hc2, hq1, hq2]
  · simp only [dictOf, dget]
    simp only [String.reduceEq, reduceIte]
    simp [getv]
  · simp only [dictOf, dget]
    simp only [String.reduceEq, reduceIte]
    simp only [isNum, toQ, truncQ_intCast,
      clampNumQ_float_id 0 1 0 r hr1 hr2, clampNumQ_float_id 0 1 0 c hc1 hc2,
      clampNumQ_float_id 0 1 (2/5) cp hcp1 hcp2, clampNumQ_float_id 0 1 (1/2) uc huc1 huc2]
    simp [hj1, hj2, hq1, hq2, truncQ_intCast]

def c2w_cells : List (String × PyVal) :=
  [("M1", .dict [("n", .int 0), ("mean_reward", .float 0), ("mean_cost", .float 0),
     ("last_used_run_id", PyVal.none), ("ucb", .float 0)])]

/-- Witness for C2 at a concrete cell. -/
theorem c2_bandit_update_witness :
    (dget c2w_cells "M1" = some (PyVal.dict
      [("n", .int 0), ("mean_reward", .float 0), ("mean_cost", .float 0),
       ("last_used_run_id", PyVal.none), ("ucb", .float 0)]) ∧
     (0 : ℤ) ≤ 0 ∧ (0 : ℚ) ≤ 1 ∧ (1 : ℚ) ≤ 1) ∧
    update_role_cell c2w_cells "M1" "run_000002"
        (.dict [("ucb_c", .float 1), ("cost_penalty", .float 1)])
        (.dict [("judge_score", .float 1), ("cost_score", .float 0)]) =
      { n := 0 + 1,
        mean_reward := 0 + (1 - 0) / ((0 : ℤ) + 1),
        mean_cost := 0 + (0 - 0) / ((0 : ℤ) + 1),
        last_used_run_id := .str "run_000002",
        ucb := ((0 + (1 - 0) / ((0 : ℤ) + 1) : ℚ) : ℝ) -
          ((1 : ℚ) : ℝ) * ((0 + (0 - 0) / ((0 : ℤ) + 1) : ℚ) : ℝ) +
          ((1 : ℚ) : ℝ) * Real.sqrt (Real.log ((max (total_runs_of c2w_cells) 2 : ℤ) : ℝ) /
            ((max ((0 : ℤ) + 1) 1 : ℤ) : ℝ)) } :=
  ⟨⟨by decide, by decide, by decide, by decide⟩,
   c2_bandit_update c2w_cells "M1" "run_000002" 0 0 0 1 0 1 1 PyVal.none (.float 0)
     (by decide) (by decide) (by decide) (by decide) (by decide) (by decide)
     (by decide) (by decide) (by decide) (by decide) (by decide) (by decide)
     (by decide) (by decide)⟩

/-! ### Claim C3 — phase gating (`der/task/state.py:25-52`) -/

def LANGUAGES : List String := ["python", "c++", "java"]

def STYLES : List String := ["clean", "minimal", "performance"]

/-- `state.py:25-52` `parse_task`.  Note the warmup validation here uses
the range `[0,3]` (`state.py:32`), not the schema's `[0,5]`
(`store.py:244`, `persist.py:295`). -/
def parse_task (memory task_json : PyVal) :
    Option String × Option String × Option String × Option String :=
  let exl := dictOf (getv (dget (dictOf memory) "exploration"))
  let warmup_runs : ℤ :=
    match dget exl "warmup_runs" with
    | some x =>
        if isNum x ∧ 0 ≤ truncQ (toQ x) ∧ truncQ (toQ x) ≤ 3 then truncQ (toQ x) else 3
    | Option.none => 3
  let runs_completed : ℤ :=
    match dget exl "runs_completed" with
    | some x => if isNum x then truncQ (toQ x) else 0
    | Option.none => 0
  let phase := if runs_completed ≥ warmup_runs then "iterate" else "bootstrap"
  let goal :=
    match dget (dictOf task_json) "goal" with
    | some (.str s) => some (pyStrip s)
    | _ => Option.none
  let language :=
    match dget (dictOf task_json) "language" with
    | some (.str s) =>
        if pyLower (pyStrip s) ∈ LANGUAGES then some (pyLower (pyStrip s)) else Option.none
    | _ => Option.none
  let style :=
    match dget (dictOf task_json) "style" with
    | some (.str s) =>
        if pyLower (pyStrip s) ∈ STYLES then some (pyLower (pyStrip s)) else Option.none
    | _ => Option.none
  (some phase, goal, language, style)

/-- **C3** (failing input).  The schema accepts `warmup_runs = 5` — the
memory-store repair keeps it (`warmupRepair (some 5) = 5`) — but
`parse_task` re-validates the same field against `[0,3]` and silently
replaces 5 by 3, so on a memory with `warmup_runs = 5` and
`runs_completed = 3` the produced phase is `iterate` although
`runs_completed < warmup_runs` requires `bootstrap`.  The code contradicts
its own schema (`store.py:244` and `persist.py:295` both use `[0,5]`);
`state.py:32` is the slip. -/
theorem c3_phase_gating_bug :
    warmupRepair (some (.int 5)) = 5 ∧
    (parse_task (.dict [("exploration", .dict
        [("warmup_runs", .int 5), ("runs_completed", .int 3)])]) (.dict [])).1 =
      some "iterate" ∧
    ¬ ((3 : ℤ) ≥ 5) := by
  refine ⟨by decide, by decide, by decide⟩

/-! ### Claim C9 — run-id generation (`der/orchestration/persist.py:13-21,283-287`) -/

/-- Digit-group scanner of Python `int(str)`: digits with single
underscores strictly between digits (ASCII model). -/
def pyIntDigitsAux : List Char → ℕ → Bool → Option ℕ
  | [], acc, seen => if seen then some acc else Option.none
  | c :: r, acc, seen =>
      if c.isDigit then pyIntDigitsAux r (acc * 10 + (c.toNat - 48)) true
      else if c = '_' then
        if seen then
          match r with
          | d :: _ => if d.isDigit then pyIntDigitsAux r acc false else Option.none
          | [] => Option.none
        else Option.none
      else Option.none

def pyIntParseStripped : List Char → Option ℤ
  | [] => Option.none
  | c :: r =>
      if c = '+' then (pyIntDigitsAux r 0 false).map (fun n => (n : ℤ))
      else if c = '-' then (pyIntDigitsAux r 0 false).map (fun n => -(n : ℤ))
      else (pyIntDigitsAux (c :: r) 0 false).map (fun n => (n : ℤ))

/-- Python `int(str)`: strip whitespace, optional sign, digit groups. -/
def pyIntParse (cs : List Char) : Option ℤ := pyIntParseStripped (pyStripList cs)

def padZeros (w : ℕ) (s : String) : String :=
  if s.length < w then String.mk (List.replicate (w - s.length) '0') ++ s else s

/-- Python `f"{n:06d}"`: zero-pad to total width 6, sign included. -/
def formatInt06 (n : ℤ) : String :=
  if 0 ≤ n then padZeros 6 (toString n.toNat) else "-" ++ padZeros 5 (toString (-n).toNat)

/-- `persist.py:13-21` `next_run_id`.  `split("_", 1)[1]` on a string that
starts with `run_` is the text after index 4. -/
def next_run_id (last_run_id : PyVal) : String :=
  match last_run_id with
  | .str s =>
      if pyStartsWith s "run_" then
        match pyIntParse (s.data.drop 4) with
        | some n => "run_" ++ formatInt06 (n + 1)
        | Option.none => "run_000001"
      else "run_000001"
  | _ => "run_000001"

/-- `persist.py:283-287` — run-id advancement inside `write_memory`. -/
def write_memory_run_ids (memory : PyVal) : PyVal :=
  let md := dictOf memory
  let run_id := getv (dget md "current_run_id")
  let md1 := dset md "current_run_id" (.str (next_run_id run_id))
  let last :=
    match run_id with
    | .str s => pyStrip s
    | _ => "run_000000"
  .dict (dset md1 "last_run_id" (.str last))

/-- A string of the exact form `run_NNNNNN` (six digits). -/
def isRunForm (s : String) : Bool :=
  s.data.length = 10 && pyStartsWith s "run_" && (s.data.drop 4).all Char.isDigit

def natOfDigits (l : List Char) : ℕ := l.foldl (fun a c => a * 10 + (c.toNat - 48)) 0

/-- **C9** (counterexample).  `"run_7"` is not of the form `run_NNNNNN`,
yet the generator returns `"run_000008"`, not `"run_000001"`: the digit
suffix is fed to Python `int()`, which accepts any integer literal. -/
theorem c9_next_run_id_not_reset :
    isRunForm "run_7" = false ∧ next_run_id (.str "run_7") = "run_000008" ∧
    ("run_000008" : String) ≠ "run_000001" := by
  refine ⟨by decide, by decide, by decide⟩

theorem isDigit_not_ws (c : Char) (h : c.isDigit = true) : isPyWs c = false := by
  simp only [Char.isDigit, Bool.and_eq_true, decide_eq_true_eq] at h
  obtain ⟨h1, h2⟩ := h
  unfold isPyWs
  have f32 : (c.val == 32) = false := by
    apply beq_eq_false_iff_ne.mpr
    intro he
    rw [he] at h1
    exact absurd h1 (by decide)
  have f9 : (c.val == 9) = false := by
    apply beq_eq_false_iff_ne.mpr
    intro he
    rw [he] at h1
    exact absurd h1 (by decide)
  have f10 : (c.val == 10) = false := by
    apply beq_eq_false_iff_ne.mpr
    intro he
    rw [he] at h1
    exact absurd h1 (by decide)
  have f13 : (c.val == 13) = false := by
    apply beq_eq_false_iff_ne.mpr
    intro he
    rw [he] at h1
    exact absurd h1 (by decide)
  have f11 : (c.val == 11) = false := by
    apply beq_eq_false_iff_ne.mpr
    intro he
    rw [he] at h1
    exact absurd h1 (by decide)
  have f12 : (c.val == 12) = false := by
    apply beq_eq_false_iff_ne.mpr
    intro he
    rw [he] at h1
    exact absurd h1 (by decide)
  rw [f32, f9, f10, f13, f11, f12]
  rfl

theorem pyStripList_all_digits (l : List Char) (h : l.all Char.isDigit = true) :
    pyStripList l = l := by
  have hmem : ∀ c ∈ l, isPyWs c = false := by
    intro c hc
    exact isDigit_not_ws c (List.all_eq_true.mp h c hc)
  unfold pyStripList
  have h1 : l.dropWhile isPyWs = l := by
    apply dropWhile_eq_self_of_head
    intro c hc
    cases l with
    | nil => simp at hc
    | cons a t =>
        simp at hc
        exact hc ▸ hmem a (by simp)
  rw [h1]
  have h2 : l.reverse.dropWhile isPyWs = l.reverse := by
    apply dropWhile_eq_self_of_head
    intro c hc
    have : c ∈ l.reverse := by
      cases hrev : l.reverse with
      | nil => rw [hrev] at hc; simp at hc
      | cons a t =>
          rw [hrev] at hc
          simp at hc
          simp [hrev, hc]
    exact hmem c (List.mem_reverse.mp this)
  rw [h2, List.reverse_reverse]

theorem pyIntDigitsAux_all (l : List Char) (acc : ℕ) (h : l.all Char.isDigit = true) :
    pyIntDigitsAux l acc true = some (l.foldl (fun a c => a * 10 + (c.toNat - 48)) acc) := by
  induction l generalizing acc with
  | nil => rfl
  | cons c t ih =>
      have hc : c.isDigit = true := List.all_eq_true.mp h c (by simp)
      have ht : t.all Char.isDigit = true := by
        apply List.all_eq_true.mpr
        intro x hx
        exact List.all_eq_true.mp h x (by simp [hx])
      simp only [pyIntDigitsAux, hc, if_true, List.foldl]
      exact ih (acc * 10 + (c.toNat - 48)) ht

theorem pyIntParse_digits (l : List Char) (hne : l ≠ []) (h : l.all Char.isDigit = true) :
    pyIntParse l = some ((natOfDigits l : ℕ) : ℤ) := by
  unfold pyIntParse
  rw [pyStripList_all_digits l h]
  cases l with
  | nil => exact absurd rfl hne
  | cons c t =>
      simp only [pyIntParseStripped]
      have hc : c.isDigit = true := List.all_eq_true.mp h c (by simp)
      have hplus : ¬ (c = '+') := by
        intro he
        rw [he] at hc
        exact absurd hc (by decide)
      have hminus : ¬ (c = '-') := by
        intro he
        rw [he] at hc
        exact absurd hc (by decide)
      rw [if_neg hplus, if_neg hminus]
      have ht : t.all Char.isDigit = true := by
        apply List.all_eq_true.mpr
        intro x hx
        exact List.all_eq_true.mp h x (by simp [hx])
      have hstep : pyIntDigitsAux (c :: t) 0 false =
          some ((c :: t).foldl (fun a c => a * 10 + (c.toNat - 48)) 0) := by
        simp only [pyIntDigitsAux, hc, if_true, List.foldl]
        exact pyIntDigitsAux_all t (0 * 10 + (c.toNat - 48)) ht
      rw [hstep]
      rfl

/-- **C9** (amended).  The generator maps every six-digit `run_NNNNNN` to
`"run_"` followed by `N+1` zero-padded to (at least) six digits, and more
generally increments any suffix Python `int()` accepts; it returns
`"run_000001"` exactly when the input does not start with `"run_"` or its
suffix is not an integer literal.  After a successful run the persisted
`current_run_id` equals the generator applied to the old (trimmed)
`current_run_id`, and `last_run_id` equals the old `current_run_id`. -/
theorem c9_run_id_amended :
    (∀ s : String, isRunForm s = true →
       next_run_id (.str s) =
         "run_" ++ formatInt06 ((natOfDigits (s.data.drop 4) : ℕ) + 1)) ∧
    (∀ s : String, pyStartsWith s "run_" = false → next_run_id (.str s) = "run_000001") ∧
    (∀ s : String, pyIntParse (s.data.drop 4) = Option.none →
       next_run_id (.str s) = "run_000001") ∧
    (∀ (m : PyVal) (s : String), dget (dictOf m) "current_run_id" = some (.str s) →
       pyStrip s = s →
       dget (dictOf (write_memory_run_ids m)) "current_run_id" =
           some (.str (next_run_id (.str s))) ∧
       dget (dictOf (write_memory_run_ids m)) "last_run_id" = some (.str s)) := by
  refine ⟨?_, ?_, ?_, ?_⟩
  · intro s h
    unfold isRunForm at h
    simp only [Bool.and_eq_true, decide_eq_true_eq] at h
    obtain ⟨⟨hlen, hpre⟩, hdig⟩ := h
    have hne : s.data.drop 4 ≠ [] := by
      intro he
      have := congrArg List.length he
      simp [hlen] at this
    simp only [next_run_id, hpre, if_true]
    rw [pyIntParse_digits (s.data.drop 4) hne hdig]
  · intro s h
    simp only [next_run_id, h]
    rfl
  · intro s h
    by_cases hpre : pyStartsWith s "run_"
    · simp only [next_run_id, hpre, if_true, h]
    · simp only [Bool.not_eq_true] at hpre
      simp only [next_run_id, hpre]
      rfl
  · intro m s hget htrim
    have hgoal : write_memory_run_ids m =
        .dict (dset (dset (dictOf m) "current_run_id" (.str (next_run_id (.str s))))
          "last_run_id" (.str s)) := by
      simp only [write_memory_run_ids, hget, getv, Option.getD, htrim]
    rw [hgoal]
    simp only [dictOf]
    constructor
    · rw [dget_dset_ne _ "last_run_id" "current_run_id" _ (by decide)]
      exact dget_dset_self _ _ _
    · exact dget_dset_self _ _ _

/-- Witness for C9 (amended) at concrete inputs. -/
theorem c9_run_id_amended_witness :
    (isRunForm "run_000123" = true ∧
      next_run_id (.str "run_000123") =
        "run_" ++ formatInt06 ((natOfDigits ("run_000123".data.drop 4) : ℕ) + 1)) ∧
    (pyStartsWith "later" "run_" = false ∧ next_run_id (.str "later") = "run_000001") ∧
    (dget (dictOf (write_memory_run_ids (.dict [("current_run_id", .str "run_000123")])))
        "current_run_id" = some (.str (next_run_id (.str "run_000123"))) ∧
     dget (dictOf (write_memory_run_ids (.dict [("current_run_id", .str "run_000123")])))
        "last_run_id" = some (.str "run_000123")) :=
  ⟨⟨by decide, c9_run_id_amended.1 "run_000123" (by decide)⟩,
   ⟨by decide, c9_run_id_amended.2.1 "later" (by decide)⟩,
   c9_run_id_amended.2.2.2 (.dict [("current_run_id", .str "run_000123")]) "run_000123"
     (by decide) (by decide)⟩

/-! ## C6: architect / implementer output coercion (runner.py) -/

/-- One iteration of the key loop in `parse_architect_output`
(runner.py lines 181-209): normalise the key, then coerce the value
per recognised key; `continue` (skip the key) when a required-style
string is missing or blank. -/
def archMoveStep (d : List (String × PyVal)) (kv : String × PyVal) :
    List (String × PyVal) :=
  let ck := pyLower (pyStrip kv.1)
  if ck = "proposal_id" ∨ ck = "path" ∨ ck = "function" then
    match kv.2 with
    | .str s => if pyStrip s ≠ "" then dset d ck (.str (pyStrip s)) else d
    | _ => d
  else if ck = "goal" then
    match kv.2 with
    | .str s => dset d ck (.str (pyStrip s))
    | _ => dset d ck (.str "")
  else if ck = "constraints" then
    match kv.2 with
    | .list xs => dset d ck (.list (xs.filter isStr))
    | _ => dset d ck (.list [])
  else d

/-- Coercion of one design move (a dict): fold the key loop over its
items, starting from the empty `dictionary`. -/
def archCoerce (mv : PyVal) : PyVal :=
  .dict ((dictOf mv).foldl archMoveStep [])

/-- `parse_architect_output` (runner.py lines 165-215).  Non-dict input
yields `{"design_moves": []}`; a list of moves keeps every element that
is a dict (appending its coercion unconditionally) and skips non-dicts. -/
def parse_architect_output (model_output : PyVal) : PyVal :=
  match model_output with
  | .dict md =>
      match dget md "design_moves" with
      | some (.list moves) =>
          .dict [("design_moves", .list ((moves.filter isDict).map archCoerce))]
      | _ => .dict [("design_moves", .list [])]
  | _ => .dict [("design_moves", .list [])]

/-- Coercion of one `included_constants` entry (runner.py lines 144-154):
a dict whose `name` is a string (stripped, possibly empty) is kept with
its raw `value`; anything else is skipped. -/
def constCoerce (c : PyVal) : Option PyVal :=
  match c with
  | .dict cd =>
      match dget cd "name" with
      | some (.str s) =>
          some (.dict [("name", .str (pyStrip s)), ("value", getv (dget cd "value"))])
      | _ => Option.none
  | _ => Option.none

/-- One iteration of the key loop in `parse_implementer_output`
(runner.py lines 102-157). -/
def implModuleStep (d : List (String × PyVal)) (kv : String × PyVal) :
    List (String × PyVal) :=
  let ck := pyLower (pyStrip kv.1)
  if ck = "proposal_ids" ∨ ck = "included_functions" ∨ ck = "included_imports" then
    match kv.2 with
    | .list xs => dset d ck (.list (xs.filter isStr))
    | _ => dset d ck (.list [])
  else if ck = "path" ∨ ck = "content" then
    match kv.2 with
    | .str s => if pyStrip s ≠ "" then dset d ck (.str (pyStrip s)) else d
    | _ => d
  else if ck = "included_constants" then
    match kv.2 with
    | .list xs => dset d ck (.list (xs.filterMap constCoerce))
    | _ => dset d ck (.list [])
  else d

/-- Coercion of one module (a dict): fold the key loop over its items. -/
def implCoerce (mv : PyVal) : PyVal :=
  .dict ((dictOf mv).foldl implModuleStep [])

/-- `parse_implementer_output` (runner.py lines 86-163). -/
def parse_implementer_output (model_output : PyVal) : PyVal :=
  match model_output with
  | .dict md =>
      match dget md "modules_added_and_updated" with
      | some (.list mods) =>
          .dict [("modules_added_and_updated",
            .list ((mods.filter isDict).map implCoerce))]
      | _ => .dict [("modules_added_and_updated", .list [])]
  | _ => .dict [("modules_added_and_updated", .list [])]

/-- **C6** (counterexample).  A design move missing `proposal_id` is NOT
dropped: the architect coercion keeps it (with the missing field simply
omitted), and likewise an implementer module missing `content` is kept.
The output lists have length 1, and the kept move indeed lacks the
required field. -/
theorem c6_partial_elements_kept :
    parse_architect_output (.dict [("design_moves",
        .list [.dict [("path", .str "p"), ("function", .str "f")]])]) =
      .dict [("design_moves",
        .list [.dict [("path", .str "p"), ("function", .str "f")]])] ∧
    parse_implementer_output (.dict [("modules_added_and_updated",
        .list [.dict [("path", .str "p")]])]) =
      .dict [("modules_added_and_updated", .list [.dict [("path", .str "p")]])] ∧
    dget [("path", PyVal.str "p"), ("function", PyVal.str "f")] "proposal_id" =
      Option.none :=
  ⟨rfl, rfl, rfl⟩

/-- **C6** (amended).  The coercions never drop a move/module that is a
dict — they keep exactly the dict elements of the input list, each
replaced by its per-key coercion (missing or blank required fields are
omitted from the element, the element itself is retained); non-dict
elements are the only ones dropped. -/
theorem c6_parsed_lists_amended :
    (∀ (moves : List PyVal) (md : List (String × PyVal)),
       dget md "design_moves" = some (.list moves) →
       parse_architect_output (.dict md) =
         .dict [("design_moves", .list ((moves.filter isDict).map archCoerce))] ∧
       (listOf (getv (dget (dictOf (parse_architect_output (.dict md)))
           "design_moves"))).length = (moves.filter isDict).length) ∧
    (∀ (mods : List PyVal) (md : List (String × PyVal)),
       dget md "modules_added_and_updated" = some (.list mods) →
       parse_implementer_output (.dict md) =
         .dict [("modules_added_and_updated",
           .list ((mods.filter isDict).map implCoerce))] ∧
       (listOf (getv (dget (dictOf (parse_implementer_output (.dict md)))
           "modules_added_and_updated"))).length = (mods.filter isDict).length) := by
  constructor
  · intro moves md h
    have he : parse_architect_output (.dict md) =
        .dict [("design_moves", .list ((moves.filter isDict).map archCoerce))] := by
      simp only [parse_architect_output, h]
    refine ⟨he, ?_⟩
    rw [he]
    simp [dictOf, dget, getv, listOf]
  · intro mods md h
    have he : parse_implementer_output (.dict md) =
        .dict [("modules_added_and_updated",
          .list ((mods.filter isDict).map implCoerce))] := by
      simp only [parse_implementer_output, h]
    refine ⟨he, ?_⟩
    rw [he]
    simp [dictOf, dget, getv, listOf]

/-- Witness for C6 (amended) at a concrete input: one dict move among
non-dict noise. -/
theorem c6_parsed_lists_amended_witness :
    dget [("design_moves", PyVal.list [.int 3, .dict [("path", .str "p")]])]
        "design_moves" = some (.list [.int 3, .dict [("path", .str "p")]]) ∧
    parse_architect_output (.dict [("design_moves",
        .list [.int 3, .dict [("path", .str "p")]])]) =
      .dict [("design_moves",
        .list (([PyVal.int 3, .dict [("path", .str "p")]].filter isDict).map archCoerce))] :=
  ⟨rfl, (c6_parsed_lists_amended.1 [.int 3, .dict [("path", .str "p")]]
      [("design_moves", PyVal.list [.int 3, .dict [("path", .str "p")]])] rfl).1⟩

/-! ## C7: chairman edit content and the file write (chairman.py, persist.py) -/

/-- One iteration of the key loop over an approved edit in
`parse_chairman_output` (chairman.py lines 28-42): `proposal_ids` is
filtered to strings, and `path` / `content` are STRIPPED (non-strings
become `""`) before being stored. -/
def chairEditStep (d : List (String × PyVal)) (kv : String × PyVal) :
    List (String × PyVal) :=
  let ck := pyLower (pyStrip kv.1)
  if ck = "proposal_ids" then
    match kv.2 with
    | .list xs => dset d ck (.list (xs.filter isStr))
    | _ => dset d ck (.list [])
  else if ck = "path" ∨ ck = "content" then
    match kv.2 with
    | .str s => dset d ck (.str (pyStrip s))
    | _ => dset d ck (.str "")
  else d

/-- The `approved_edits` component of `parse_chairman_output`
(chairman.py lines 20-44): keep each dict edit, coercing its keys. -/
def chairApprovedEdits (chairman_output : PyVal) : List PyVal :=
  match chairman_output with
  | .dict cd =>
      match dget cd "approved_edits" with
      | some (.list es) =>
          (es.filter isDict).map (fun e => .dict ((dictOf e).foldl chairEditStep []))
      | _ => []
  | _ => []

/-- The body of the per-edit loop in `update_files`
(persist.py lines 454-473): strip the path, resolve it, check
confinement, strip the content, skip when blank, else write the
STRIPPED content. -/
def applyEdit (base cwd : PathA) (fs : FileFS) (edit : PyVal) : FileFS :=
  match edit with
  | .dict ed =>
      let path0 :=
        match dget ed "path" with
        | some (.str s) => pyStrip s
        | _ => ""
      if path0 = "" then fs
      else
        let p := resolveStr cwd path0
        if isWithinBase p base then
          let content :=
            match dget ed "content" with
            | some (.str s) => pyStrip s
            | _ => ""
          if content = "" then fs
          else fwrite fs p content
        else fs
  | _ => fs

/-- **C7** (counterexample).  Content is NOT written verbatim: an edit
whose chairman content is `"x\n"` is coerced to `"x"` by
`parse_chairman_output`, and the update loop writes the stripped bytes
`"x"`, not `"x\n"`. -/
theorem c7_content_not_verbatim :
    chairApprovedEdits (.dict [("approved_edits",
        .list [.dict [("path", .str "/b/f.py"), ("content", .str "x\n")]])]) =
      [.dict [("path", .str "/b/f.py"), ("content", .str "x")]] ∧
    applyEdit ["b"] [] []
        (.dict [("path", .str "/b/f.py"), ("content", .str "x\n")]) =
      [(["b", "f.py"], "x")] ∧
    ("x" : String) ≠ "x\n" :=
  ⟨rfl, rfl, by decide⟩

/-- **C7** (amended).  For every applied edit the bytes written are the
Python-whitespace-STRIP of the edit's content string (and the chairman
coercion already stores the stripped content): verbatim up to leading
and trailing whitespace. -/
theorem c7_written_bytes_amended :
    (∀ (base cwd : PathA) (fs : FileFS) (ed : List (String × PyVal)) (pstr c : String),
       dget ed "path" = some (.str pstr) →
       dget ed "content" = some (.str c) →
       pyStrip pstr ≠ "" →
       isWithinBase (resolveStr cwd (pyStrip pstr)) base = true →
       pyStrip c ≠ "" →
       applyEdit base cwd fs (.dict ed) =
         fwrite fs (resolveStr cwd (pyStrip pstr)) (pyStrip c)) ∧
    (∀ p c : String,
       chairApprovedEdits (.dict [("approved_edits",
           .list [.dict [("path", .str p), ("content", .str c)]])]) =
         [.dict [("path", .str (pyStrip p)), ("content", .str (pyStrip c))]]) := by
  constructor
  · intro base cwd fs ed pstr c hp hc hpne hwithin hcne
    simp only [applyEdit, hp, hc]
    rw [if_neg hpne, if_pos hwithin, if_neg hcne]
  · intro p c
    rfl

/-- Witness for C7 (amended) at a concrete edit. -/
theorem c7_written_bytes_amended_witness :
    dget [("path", PyVal.str " /b/f.py "), ("content", PyVal.str "x\n")] "path" =
        some (.str " /b/f.py ") ∧
    pyStrip " /b/f.py " ≠ "" ∧
    isWithinBase (resolveStr [] (pyStrip " /b/f.py ")) ["b"] = true ∧
    pyStrip "x\n" ≠ "" ∧
    applyEdit ["b"] [] []
        (.dict [("path", .str " /b/f.py "), ("content", .str "x\n")]) =
      fwrite [] (resolveStr [] (pyStrip " /b/f.py ")) (pyStrip "x\n") :=
  ⟨rfl, by decide, by decide, by decide,
   c7_written_bytes_amended.1 ["b"] [] []
     [("path", PyVal.str " /b/f.py "), ("content", PyVal.str "x\n")]
     " /b/f.py " "x\n" rfl rfl (by decide) (by decide) (by decide)⟩

/-! ## C5: memory.json rotation order (persist.py lines 340-355) -/

/-- A filesystem operation performed by the persistence tail of
`write_memory`: `Path.replace` (rename, overwriting the target) and
the two observable stages of `open("w")` + `json.dump` (truncate on
open, full content on close). -/
inductive FsOp where
  | rename (src dst : PathA)
  | truncate (p : PathA)
  | write (p : PathA) (c : String)

/-- Remove every entry at path `p`. -/
def fremove (fs : FileFS) (p : PathA) : FileFS := fs.filter (fun e => ¬(e.1 = p))

def applyOp (fs : FileFS) (op : FsOp) : FileFS :=
  match op with
  | .rename src dst =>
      match flookup fs src with
      | some c => fwrite (fremove fs src) dst c
      | Option.none => fs
  | .truncate p => fwrite fs p ""
  | .write p c => fwrite fs p c

def applyOps (fs : FileFS) (ops : List FsOp) : FileFS := ops.foldl applyOp fs

def memJsonPath (root : PathA) : PathA := root ++ ["memory", "memory.json"]

def prevJsonPath (root : PathA) : PathA := root ++ ["memory", "previous_memory.json"]

/-- The operation sequence of persist.py lines 346-351: IF memory.json
exists, first `replace` it to previous_memory.json, THEN open
memory.json for writing (truncating) and dump the new serialisation. -/
def write_memory_file_ops (root : PathA) (newC : String) (exists_mem : Bool) :
    List FsOp :=
  (if exists_mem then
     [FsOp.rename (memJsonPath root) (prevJsonPath root)]
   else []) ++
  [FsOp.truncate (memJsonPath root), FsOp.write (memJsonPath root) newC]

/-- The observer property the claim asserts: at every instant of the
persistence sequence, memory.json holds either the pre-run or the
post-run serialisation. -/
def observerSeesMemory (root : PathA) (oldC newC : String) (fs0 : FileFS)
    (ops : List FsOp) : Bool :=
  (List.scanl applyOp fs0 ops).all (fun s =>
    flookup s (memJsonPath root) = some oldC ||
    flookup s (memJsonPath root) = some newC)

theorem flookup_fwrite_self (fs : FileFS) (p : PathA) (c : String) :
    flookup (fwrite fs p c) p = some c := by
  induction fs with
  | nil => simp [fwrite, flookup]
  | cons hd t ih =>
      obtain ⟨q, c0⟩ := hd
      by_cases h : q = p
      · simp [fwrite, flookup, h]
      · simp [fwrite, flookup, h, ih]

theorem flookup_fwrite_ne (fs : FileFS) (p q : PathA) (c : String) (h : p ≠ q) :
    flookup (fwrite fs p c) q = flookup fs q := by
  induction fs with
  | nil => simp [fwrite, flookup, h]
  | cons hd t ih =>
      obtain ⟨r, c0⟩ := hd
      by_cases h1 : r = p
      · subst h1; simp [fwrite, flookup, h]
      · simp [fwrite, flookup, h1, ih]

theorem flookup_fremove_self (fs : FileFS) (p : PathA) :
    flookup (fremove fs p) p = Option.none := by
  induction fs with
  | nil => simp [fremove, flookup]
  | cons hd t ih =>
      obtain ⟨q, c0⟩ := hd
      by_cases h : q = p
      · simpa [fremove, flookup, h] using ih
      · simpa [fremove, flookup, h] using ih

theorem flookup_fremove_ne (fs : FileFS) (p q : PathA) (h : p ≠ q) :
    flookup (fremove fs p) q = flookup fs q := by
  induction fs with
  | nil => simp [fremove, flookup]
  | cons hd t ih =>
      obtain ⟨r, c0⟩ := hd
      by_cases h1 : r = p
      · subst h1
        simpa [fremove, flookup, h] using ih
      · by_cases h2 : r = q
        · subst h2
          simp [fremove, flookup, h1]
        · simpa [fremove, flookup, h1, h2] using ih

theorem memJson_ne_prevJson (root : PathA) : memJsonPath root ≠ prevJsonPath root := by
  intro h
  have := List.append_cancel_left h
  simp at this

/-- **C5** (counterexample).  The code renames the old memory.json away
BEFORE writing the new one, so an observer between the two sees no
memory.json at all: the claimed write-then-rotate order does not hold,
and the instant-by-instant observer property is false.  The first
conjunct exhibits the actual operation order (rename first). -/
theorem c5_observer_gap :
    write_memory_file_ops ["r"] "new" true =
      [FsOp.rename (memJsonPath ["r"]) (prevJsonPath ["r"]),
       FsOp.truncate (memJsonPath ["r"]),
       FsOp.write (memJsonPath ["r"]) "new"] ∧
    flookup (applyOp [(memJsonPath ["r"], "old")]
        (FsOp.rename (memJsonPath ["r"]) (prevJsonPath ["r"])))
      (memJsonPath ["r"]) = Option.none ∧
    observerSeesMemory ["r"] "old" "new" [(memJsonPath ["r"], "old")]
      (write_memory_file_ops ["r"] "new" true) = false :=
  ⟨rfl, rfl, rfl⟩

/-- **C5** (amended).  The actual sequence is: rotate the pre-existing
memory.json to previous_memory.json FIRST, then truncate-and-write the
new memory.json.  Consequently after the rename memory.json is absent
(so the observer property fails); at the end memory.json holds the new
serialisation and previous_memory.json the old one; and when no
memory.json pre-exists, no rename is performed. -/
theorem c5_rotation_amended :
    (∀ (root : PathA) (oldC newC : String) (fs0 : FileFS),
       flookup fs0 (memJsonPath root) = some oldC →
       flookup (applyOp fs0 (FsOp.rename (memJsonPath root) (prevJsonPath root)))
           (memJsonPath root) = Option.none ∧
       flookup (applyOps fs0 (write_memory_file_ops root newC true))
           (memJsonPath root) = some newC ∧
       flookup (applyOps fs0 (write_memory_file_ops root newC true))
           (prevJsonPath root) = some oldC) ∧
    (∀ (root : PathA) (newC : String),
       write_memory_file_ops root newC false =
         [FsOp.truncate (memJsonPath root), FsOp.write (memJsonPath root) newC]) := by
  constructor
  · intro root oldC newC fs0 h
    have hne := memJson_ne_prevJson root
    have hren : applyOp fs0 (FsOp.rename (memJsonPath root) (prevJsonPath root)) =
        fwrite (fremove fs0 (memJsonPath root)) (prevJsonPath root) oldC := by
      simp only [applyOp, h]
    have hops : write_memory_file_ops root newC true =
        [FsOp.rename (memJsonPath root) (prevJsonPath root),
         FsOp.truncate (memJsonPath root), FsOp.write (memJsonPath root) newC] := rfl
    refine ⟨?_, ?_, ?_⟩
    · rw [hren, flookup_fwrite_ne _ _ _ _ (Ne.symm hne), flookup_fremove_self]
    · rw [hops]
      simp only [applyOps, List.foldl, applyOp]
      rw [flookup_fwrite_self]
    · rw [hops]
      simp only [applyOps, List.foldl]
      rw [hren]
      simp only [applyOp]
      rw [flookup_fwrite_ne _ _ _ _ hne, flookup_fwrite_ne _ _ _ _ hne,
        flookup_fwrite_self]
  · intro root newC
    rfl

/-- Witness for C5 (amended) at a concrete pre-state. -/
theorem c5_rotation_amended_witness :
    flookup [(memJsonPath ["r"], "old")] (memJsonPath ["r"]) = some "old" ∧
    flookup (applyOps [(memJsonPath ["r"], "old")]
        (write_memory_file_ops ["r"] "new" true)) (memJsonPath ["r"]) = some "new" ∧
    flookup (applyOps [(memJsonPath ["r"], "old")]
        (write_memory_file_ops ["r"] "new" true)) (prevJsonPath ["r"]) = some "old" :=
  ⟨rfl, (c5_rotation_amended.1 ["r"] "old" "new" [(memJsonPath ["r"], "old")] rfl).2.1,
   (c5_rotation_amended.1 ["r"] "old" "new" [(memJsonPath ["r"], "old")] rfl).2.2⟩

/-! ## C4: path confinement of writes and directory-index entries
(utils.py `is_within_base`, persist.py `update_files`,
`update_code_directory`, `update_directory_structure`).
The Python-`ast` extraction of functions/imports/constants is abstracted
by a parameter `ext`; file existence by a parameter `exf`. -/

/-- `safe_relpath` (persist.py lines 634-652) on resolved paths:
`None` when `commonpath != base`, else the relative component list
(`[]` stands for Python's `"."`). -/
def safeRelpath (p base : PathA) : Option (List String) :=
  if isWithinBase p base then some (p.drop base.length) else Option.none

/-- Module name stored in a file entry: the stripped `module` field when
it is a string (entries without one are skipped by the code). -/
def entryModuleStr (f : PyVal) : Option String :=
  match f with
  | .dict fd =>
      match dget fd "module" with
      | some (.str s) => some (pyStrip s)
      | _ => Option.none
  | _ => Option.none

/-- Extraction result: top-level function names, import lines,
constant (name, value) pairs. -/
abbrev ExtractRes := List String × List String × List (String × String)

def constantsVal (exr : ExtractRes) : PyVal :=
  .list (exr.2.2.map (fun nv => .dict [("name", .str nv.1), ("value", .str nv.2)]))

/-- The fresh file entry of persist.py lines 701-707 / 731-736 (an empty
template whose five keys are then assigned in order). -/
def newFileEntry (p : PathA) (module : String) (exr : ExtractRes) : PyVal :=
  .dict [("path", .str (pathToStr p)), ("module", .str module),
    ("functions", .list (exr.1.map PyVal.str)),
    ("imports", .list (exr.2.1.map PyVal.str)),
    ("constants", constantsVal exr)]

/-- The in-place update of a matching file entry (persist.py lines
709-721 / 738-749): entries that are not dicts, lack a string module, or
strip to a different/blank module are left alone. -/
def setFileEntry (p : PathA) (module : String) (exr : ExtractRes) (f : PyVal) : PyVal :=
  match f with
  | .dict fd =>
      match dget fd "module" with
      | some (.str s) =>
          if pyStrip s ≠ "" ∧ pyStrip s = module then
            .dict (dset (dset (dset (dset (dset fd
              "path" (.str (pathToStr p)))
              "module" (.str module))
              "functions" (.list (exr.1.map PyVal.str)))
              "imports" (.list (exr.2.1.map PyVal.str)))
              "constants" (constantsVal exr))
          else .dict fd
      | _ => .dict fd
  | _ => f

/-- The files-list update: append a fresh entry when no entry carries
this module, else rewrite every matching entry. -/
def updateFilesList (p : PathA) (module : String) (exr : ExtractRes)
    (files : List PyVal) : List PyVal :=
  if files.any (fun f => entryModuleStr f = some module) then
    files.map (setFileEntry p module exr)
  else files ++ [newFileEntry p module exr]

/-- The node created for a missing directory component (persist.py line
674-675). -/
def dirNodeTemplate (p : PathA) : List (String × PyVal) :=
  [("path", .str (pathToStr p)), ("dirs", .dict []), ("files", .list [])]

/-- Reset an existing node's `path` to the running path when the stored
(stripped) one differs (persist.py lines 682-685). -/
def fixNodePath (p : PathA) (nd : List (String × PyVal)) : List (String × PyVal) :=
  let cur :=
    match dget nd "path" with
    | some (.str s) => pyStrip s
    | _ => ""
  if cur = pathToStr p then nd else dset nd "path" (.str (pathToStr p))

/-- The files handling at the final directory node (persist.py lines
694-721). -/
def nodeFilesUpdate (dirp : PathA) (module : String) (exr : ExtractRes)
    (nd : List (String × PyVal)) : List (String × PyVal) :=
  let files := listOf (listOrEmpty (dget nd "files"))
  dset nd "files" (.list (updateFilesList (dirp ++ [module]) module exr files))

/-- The walk over the intermediate directory components (persist.py
lines 671-693), returning `none` when an existing node is not a dict
(the code would raise `AttributeError` there). -/
def ucdWalk (module : String) (exr : ExtractRes) :
    PathA → List String → List (String × PyVal) → Option (List (String × PyVal))
  | _, [], m => some m
  | rp, [d], m =>
      match dget m d with
      | Option.none =>
          some (dset m d (.dict (nodeFilesUpdate (rp ++ [d]) module exr
            (dirNodeTemplate (rp ++ [d])))))
      | some (.dict nd) =>
          let nd1 := fixNodePath (rp ++ [d]) nd
          let nd2 := dset nd1 "dirs" (.dict (dictOf (dictOrEmpty (dget nd1 "dirs"))))
          some (dset m d (.dict (nodeFilesUpdate (rp ++ [d]) module exr nd2)))
      | some _ => Option.none
  | rp, d :: d2 :: rest, m =>
      match dget m d with
      | Option.none =>
          match ucdWalk module exr (rp ++ [d]) (d2 :: rest) [] with
          | some sub =>
              some (dset m d (.dict [("path", .str (pathToStr (rp ++ [d]))),
                ("dirs", .dict sub), ("files", .list [])]))
          | Option.none => Option.none
      | some (.dict nd) =>
          let nd1 := fixNodePath (rp ++ [d]) nd
          match ucdWalk module exr (rp ++ [d]) (d2 :: rest)
              (dictOf (dictOrEmpty (dget nd1 "dirs"))) with
          | some sub => some (dset m d (.dict (dset nd1 "dirs" (.dict sub))))
          | Option.none => Option.none
      | some _ => Option.none

/-- `update_code_directory` (persist.py lines 654-751), parameterised by
file existence `exf` and content extraction `ext`; `none` models an
uncaught exception. -/
def update_code_directory (exf : PathA → Bool)
    (ext : String → ExtractRes) (p base : PathA)
    (cd : List (String × PyVal)) (content : String) :
    Option (List (String × PyVal)) :=
  if exf p then
    match safeRelpath p base with
    | Option.none => some cd
    | some rel =>
        let parts := if rel.isEmpty then ["."] else rel
        let module := parts.getLastD ""
        let dirs := parts.dropLast
        if dirs.isEmpty then
          let files := listOf (listOrEmpty (dget cd "files"))
          some (dset cd "files"
            (.list (updateFilesList (base ++ [module]) module (ext content) files)))
        else
          match ucdWalk module (ext content) base dirs
              (dictOf (dictOrEmpty (dget cd "dirs"))) with
          | some sub => some (dset cd "dirs" (.dict sub))
          | Option.none => Option.none
  else some cd

/-- The per-edit body of the loop in `update_directory_structure`
(persist.py lines 826-839): strip the path, resolve, check confinement,
strip the content, and only then touch the index. -/
def dirStructEditStep (exf : PathA → Bool) (ext : String → ExtractRes)
    (base cwd : PathA) (cd : List (String × PyVal)) (edit : PyVal) :
    Option (List (String × PyVal)) :=
  match edit with
  | .dict ed =>
      let path0 :=
        match dget ed "path" with
        | some (.str s) => pyStrip s
        | _ => ""
      if path0 = "" then some cd
      else
        let p := resolveStr cwd path0
        if isWithinBase p base then
          let content :=
            match dget ed "content" with
            | some (.str s) => pyStrip s
            | _ => ""
          if content = "" then some cd
          else update_code_directory exf ext p base cd content
        else some cd
  | _ => some cd

/-- A value that, if it is a string, spells a resolved path lying within
`base`. -/
def PathStrOk (base : PathA) : PyVal → Prop
  | .str s => ∃ q : PathA, s = pathToStr q ∧ base.isPrefixOf q = true
  | _ => True

/-- Depth-bounded path-confinement invariant over a JSON value: every
`"path"`-keyed string anywhere inside spells a path within `base`. -/
def GoodPaths (base : PathA) : ℕ → PyVal → Prop
  | 0, _ => True
  | fuel+1, .dict l =>
      ∀ kv ∈ l, (kv.1 = "path" → PathStrOk base kv.2) ∧ GoodPaths base fuel kv.2
  | fuel+1, .list l => ∀ v ∈ l, GoodPaths base fuel v
  | _+1, _ => True

/-- Confinement at every depth. -/
def AllGood (base : PathA) (v : PyVal) : Prop := ∀ fuel, GoodPaths base fuel v

theorem allGood_atom (base : PathA) (v : PyVal)
    (h : ∀ l, v ≠ .dict l) (h2 : ∀ l, v ≠ .list l) : AllGood base v := by
  intro fuel
  cases fuel with
  | zero => trivial
  | succ n =>
      cases v with
      | dict l => exact absurd rfl (h l)
      | list l => exact absurd rfl (h2 l)
      | none => trivial
      | bool b => trivial
      | int i => trivial
      | float q => trivial
      | str s => trivial

theorem allGood_str (base : PathA) (s : String) : AllGood base (.str s) :=
  allGood_atom base _ (by intro l h; cases h) (by intro l h; cases h)

theorem allGood_dict_iff (base : PathA) (l : List (String × PyVal)) :
    AllGood base (.dict l) ↔
      ∀ kv ∈ l, (kv.1 = "path" → PathStrOk base kv.2) ∧ AllGood base kv.2 := by
  constructor
  · intro h kv hm
    refine ⟨((h 1) kv hm).1, ?_⟩
    intro fuel
    exact ((h (fuel + 1)) kv hm).2
  · intro h fuel
    cases fuel with
    | zero => trivial
    | succ n =>
        intro kv hm
        exact ⟨(h kv hm).1, (h kv hm).2 n⟩

theorem allGood_list_iff (base : PathA) (l : List PyVal) :
    AllGood base (.list l) ↔ ∀ v ∈ l, AllGood base v := by
  constructor
  · intro h v hm
    intro fuel
    exact (h (fuel + 1)) v hm
  · intro h fuel
    cases fuel with
    | zero => trivial
    | succ n =>
        intro v hm
        exact h v hm n

/-- The pointwise invariant of one dict entry. -/
def GoodEntry (base : PathA) (kv : String × PyVal) : Prop :=
  (kv.1 = "path" → PathStrOk base kv.2) ∧ AllGood base kv.2

theorem goodEntry_dset (base : PathA) (l : List (String × PyVal))
    (k : String) (v : PyVal)
    (hl : ∀ kv ∈ l, GoodEntry base kv)
    (hv : AllGood base v) (hp : k = "path" → PathStrOk base v) :
    ∀ kv ∈ dset l k v, GoodEntry base kv := by
  induction l with
  | nil =>
      intro kv hm
      simp only [dset, List.mem_singleton] at hm
      subst hm
      exact ⟨hp, hv⟩
  | cons hd t ih =>
      obtain ⟨k1, v1⟩ := hd
      intro kv hm
      by_cases h1 : k1 = k
      · simp only [dset, if_pos h1] at hm
        rcases List.mem_cons.mp hm with h2 | h2
        · subst h2
          exact ⟨fun hk => hp (h1.symm.trans hk), hv⟩
        · exact hl kv (List.mem_cons_of_mem _ h2)
      · simp only [dset, if_neg h1] at hm
        rcases List.mem_cons.mp hm with h2 | h2
        · subst h2
          exact hl (k1, v1) (List.mem_cons_self _ _)
        · exact ih (fun kv2 hm2 => hl kv2 (List.mem_cons_of_mem _ hm2)) kv h2

theorem allGood_dictOrEmpty (base : PathA) (v : PyVal) (hv : AllGood base v) :
    ∀ kv ∈ dictOf (dictOrEmpty (some v)), GoodEntry base kv := by
  cases v with
  | dict l =>
      intro kv hm
      simp only [dictOrEmpty, dictOf] at hm
      exact ⟨((allGood_dict_iff base l).mp hv kv hm).1,
             ((allGood_dict_iff base l).mp hv kv hm).2⟩
  | none => intro kv hm; simp [dictOrEmpty, dictOf] at hm
  | bool b => intro kv hm; simp [dictOrEmpty, dictOf] at hm
  | int i => intro kv hm; simp [dictOrEmpty, dictOf] at hm
  | float q => intro kv hm; simp [dictOrEmpty, dictOf] at hm
  | str s => intro kv hm; simp [dictOrEmpty, dictOf] at hm
  | list l => intro kv hm; simp [dictOrEmpty, dictOf] at hm

theorem allGood_listOrEmpty (base : PathA) (v : PyVal) (hv : AllGood base v) :
    ∀ x ∈ listOf (listOrEmpty (some v)), AllGood base x := by
  cases v with
  | list l =>
      intro x hm
      simp only [listOrEmpty, listOf] at hm
      exact (allGood_list_iff base l).mp hv x hm
  | none => intro x hm; simp [listOrEmpty, listOf] at hm
  | bool b => intro x hm; simp [listOrEmpty, listOf] at hm
  | int i => intro x hm; simp [listOrEmpty, listOf] at hm
  | float q => intro x hm; simp [listOrEmpty, listOf] at hm
  | str s => intro x hm; simp [listOrEmpty, listOf] at hm
  | dict l => intro x hm; simp [listOrEmpty, listOf] at hm

theorem isPrefixOf_append_right (base rp : PathA) (l : List String)
    (h : base.isPrefixOf rp = true) : base.isPrefixOf (rp ++ l) = true := by
  induction base generalizing rp with
  | nil => simp [List.isPrefixOf]
  | cons b bt ih =>
      cases rp with
      | nil => simp [List.isPrefixOf] at h
      | cons r rt =>
          simp only [List.isPrefixOf, List.cons_append, Bool.and_eq_true] at h ⊢
          exact ⟨h.1, ih rt h.2⟩

theorem pathStrOk_within (base q : PathA) (h : base.isPrefixOf q = true) :
    PathStrOk base (.str (pathToStr q)) := ⟨q, rfl, h⟩

theorem pathStrOk_dict (base : PathA) (l : List (String × PyVal)) :
    PathStrOk base (.dict l) := trivial

theorem allGood_strList (base : PathA) (l : List String) :
    AllGood base (.list (l.map PyVal.str)) := by
  rw [allGood_list_iff]
  intro v hv
  obtain ⟨a, _, rfl⟩ := List.mem_map.mp hv
  exact allGood_str base a

theorem allGood_constantsVal (base : PathA) (exr : ExtractRes) :
    AllGood base (constantsVal exr) := by
  rw [constantsVal, allGood_list_iff]
  intro v hv
  obtain ⟨nv, _, rfl⟩ := List.mem_map.mp hv
  rw [allGood_dict_iff]
  intro kv hkv
  simp only [List.mem_cons, List.mem_singleton] at hkv
  rcases hkv with h | h
  · subst h
    exact ⟨fun hk => absurd hk (by simp), allGood_str base _⟩
  · rcases h with h | h
    · subst h
      exact ⟨fun hk => absurd hk (by simp), allGood_str base _⟩
    · cases h

theorem dget_mem (l : List (String × PyVal)) (k : String) (v : PyVal)
    (h : dget l k = some v) : (k, v) ∈ l := by
  induction l with
  | nil => simp [dget] at h
  | cons hd t ih =>
      obtain ⟨k1, v1⟩ := hd
      by_cases h1 : k1 = k
      · subst h1
        simp only [dget, if_pos rfl] at h
        have hv : v1 = v := by simpa using h
        rw [← hv]
        exact List.mem_cons_self _ _
      · simp only [dget, if_neg h1] at h
        exact List.mem_cons_of_mem _ (ih h)

theorem allGood_newFileEntry (base p : PathA) (module : String) (exr : ExtractRes)
    (hp : base.isPrefixOf p = true) : AllGood base (newFileEntry p module exr) := by
  rw [newFileEntry, allGood_dict_iff]
  intro kv hm
  simp only [List.mem_cons, List.mem_singleton] at hm
  rcases hm with h | h | h | h | h | h
  · subst h
    exact ⟨fun _ => pathStrOk_within base p hp, allGood_str base _⟩
  · subst h
    exact ⟨fun hk => absurd hk (by simp), allGood_str base _⟩
  · subst h
    exact ⟨fun hk => absurd hk (by simp), allGood_strList base _⟩
  · subst h
    exact ⟨fun hk => absurd hk (by simp), allGood_strList base _⟩
  · subst h
    exact ⟨fun hk => absurd hk (by simp), allGood_constantsVal base _⟩
  · cases h

theorem allGood_setFileEntry (base p : PathA) (module : String) (exr : ExtractRes)
    (hp : base.isPrefixOf p = true) (f : PyVal) (hf : AllGood base f) :
    AllGood base (setFileEntry p module exr f) := by
  cases f with
  | dict fd =>
      cases hdg : dget fd "module" with
      | none => simp only [setFileEntry, hdg]; exact hf
      | some v =>
          cases v with
          | str s =>
              simp only [setFileEntry, hdg]
              by_cases hc : pyStrip s ≠ "" ∧ pyStrip s = module
              · rw [if_pos hc]
                have h0 := (allGood_dict_iff base fd).mp hf
                have h1 := goodEntry_dset base fd "path" (.str (pathToStr p)) h0
                  (allGood_str base _) (fun _ => pathStrOk_within base p hp)
                have h2 := goodEntry_dset base _ "module" (.str module) h1
                  (allGood_str base _) (fun hk => absurd hk (by simp))
                have h3 := goodEntry_dset base _ "functions"
                  (.list (exr.1.map PyVal.str)) h2
                  (allGood_strList base _) (fun hk => absurd hk (by simp))
                have h4 := goodEntry_dset base _ "imports"
                  (.list (exr.2.1.map PyVal.str)) h3
                  (allGood_strList base _) (fun hk => absurd hk (by simp))
                have h5 := goodEntry_dset base _ "constants" (constantsVal exr) h4
                  (allGood_constantsVal base exr) (fun hk => absurd hk (by simp))
                exact (allGood_dict_iff base _).mpr h5
              · rw [if_neg hc]
                exact hf
          | none => simp only [setFileEntry, hdg]; exact hf
          | bool b => simp only [setFileEntry, hdg]; exact hf
          | int i => simp only [setFileEntry, hdg]; exact hf
          | float q => simp only [setFileEntry, hdg]; exact hf
          | list l => simp only [setFileEntry, hdg]; exact hf
          | dict l => simp only [setFileEntry, hdg]; exact hf
  | none => exact hf
  | bool b => exact hf
  | int i => exact hf
  | float q => exact hf
  | str s => exact hf
  | list l => exact hf

theorem allGood_updateFilesList (base p : PathA) (module : String) (exr : ExtractRes)
    (hp : base.isPrefixOf p = true) (files : List PyVal)
    (hf : ∀ f ∈ files, AllGood base f) :
    ∀ f ∈ updateFilesList p module exr files, AllGood base f := by
  simp only [updateFilesList]
  by_cases hmem : files.any (fun f => entryModuleStr f = some module)
  · rw [if_pos hmem]
    intro f hm
    obtain ⟨g, hg, rfl⟩ := List.mem_map.mp hm
    exact allGood_setFileEntry base p module exr hp g (hf g hg)
  · rw [if_neg hmem]
    intro f hm
    rcases List.mem_append.mp hm with h | h
    · exact hf f h
    · rw [List.mem_singleton.mp h]
      exact allGood_newFileEntry base p module exr hp

theorem goodEntry_nodeFilesUpdate (base dirp : PathA) (module : String)
    (exr : ExtractRes) (nd : List (String × PyVal))
    (hd : base.isPrefixOf dirp = true)
    (hnd : ∀ kv ∈ nd, GoodEntry base kv) :
    ∀ kv ∈ nodeFilesUpdate dirp module exr nd, GoodEntry base kv := by
  simp only [nodeFilesUpdate]
  have hfiles : ∀ f ∈ listOf (listOrEmpty (dget nd "files")), AllGood base f := by
    cases hdg : dget nd "files" with
    | none => intro f hm; simp [listOrEmpty, listOf] at hm
    | some v =>
        exact allGood_listOrEmpty base v (hnd ("files", v) (dget_mem nd "files" v hdg)).2
  refine goodEntry_dset base nd "files" _ hnd ?_ (fun hk => absurd hk (by simp))
  rw [allGood_list_iff]
  exact allGood_updateFilesList base (dirp ++ [module]) module exr
    (isPrefixOf_append_right base dirp [module] hd) _ hfiles

theorem goodEntry_fixNodePath (base p : PathA) (nd : List (String × PyVal))
    (hp : base.isPrefixOf p = true)
    (hnd : ∀ kv ∈ nd, GoodEntry base kv) :
    ∀ kv ∈ fixNodePath p nd, GoodEntry base kv := by
  simp only [fixNodePath]
  by_cases hc : (match dget nd "path" with
      | some (.str s) => pyStrip s
      | _ => "") = pathToStr p
  · rw [if_pos hc]; exact hnd
  · rw [if_neg hc]
    exact goodEntry_dset base nd "path" _ hnd (allGood_str base _)
      (fun _ => pathStrOk_within base p hp)

theorem goodEntry_dirNodeTemplate (base p : PathA) (hp : base.isPrefixOf p = true) :
    ∀ kv ∈ dirNodeTemplate p, GoodEntry base kv := by
  intro kv hm
  simp only [dirNodeTemplate, List.mem_cons, List.mem_singleton] at hm
  rcases hm with h | h | h | h
  · subst h
    exact ⟨fun _ => pathStrOk_within base p hp, allGood_str base _⟩
  · subst h
    refine ⟨fun hk => absurd hk (by simp), ?_⟩
    rw [allGood_dict_iff]
    intro kv2 hm2
    cases hm2
  · subst h
    refine ⟨fun hk => absurd hk (by simp), ?_⟩
    rw [allGood_list_iff]
    intro v hm2
    cases hm2
  · cases h

theorem isPrefixOf_self (l : List String) : l.isPrefixOf l = true := by
  induction l with
  | nil => rfl
  | cons a t ih => simp [List.isPrefixOf, ih]

theorem ucdWalk_good (base : PathA) (module : String) (exr : ExtractRes) :
    ∀ (ds : List String) (rp : PathA) (m sub : List (String × PyVal)),
      base.isPrefixOf rp = true →
      (∀ kv ∈ m, GoodEntry base kv) →
      ucdWalk module exr rp ds m = some sub →
      ∀ kv ∈ sub, GoodEntry base kv := by
  intro ds
  induction ds with
  | nil =>
      intro rp m sub hrp hm h
      simp only [ucdWalk, Option.some.injEq] at h
      rw [← h]
      exact hm
  | cons d rest ih =>
      cases rest with
      | nil =>
          intro rp m sub hrp hm h
          have hrpd : base.isPrefixOf (rp ++ [d]) = true :=
            isPrefixOf_append_right base rp [d] hrp
          cases hdg : dget m d with
          | none =>
              simp only [ucdWalk, hdg, Option.some.injEq] at h
              rw [← h]
              refine goodEntry_dset base m d _ hm ?_ (fun _ => pathStrOk_dict base _)
              rw [allGood_dict_iff]
              exact goodEntry_nodeFilesUpdate base (rp ++ [d]) module exr _ hrpd
                (goodEntry_dirNodeTemplate base (rp ++ [d]) hrpd)
          | some v =>
              cases v with
              | dict nd =>
                  simp only [ucdWalk, hdg, Option.some.injEq] at h
                  rw [← h]
                  have hnd : ∀ kv ∈ nd, GoodEntry base kv :=
                    (allGood_dict_iff base nd).mp (hm (d, .dict nd) (dget_mem m d _ hdg)).2
                  have hnd1 := goodEntry_fixNodePath base (rp ++ [d]) nd hrpd hnd
                  have hdirs : ∀ kv ∈ dictOf (dictOrEmpty
                      (dget (fixNodePath (rp ++ [d]) nd) "dirs")), GoodEntry base kv := by
                    cases hdg2 : dget (fixNodePath (rp ++ [d]) nd) "dirs" with
                    | none => intro kv hmm; simp [dictOrEmpty, dictOf] at hmm
                    | some w =>
                        exact allGood_dictOrEmpty base w
                          (hnd1 ("dirs", w) (dget_mem _ _ _ hdg2)).2
                  have hnd2 := goodEntry_dset base (fixNodePath (rp ++ [d]) nd) "dirs"
                    (.dict (dictOf (dictOrEmpty (dget (fixNodePath (rp ++ [d]) nd) "dirs"))))
                    hnd1 ((allGood_dict_iff base _).mpr hdirs) (fun hk => absurd hk (by simp))
                  refine goodEntry_dset base m d _ hm ?_ (fun _ => pathStrOk_dict base _)
                  rw [allGood_dict_iff]
                  exact goodEntry_nodeFilesUpdate base (rp ++ [d]) module exr _ hrpd hnd2
              | none => simp [ucdWalk, hdg] at h
              | bool b => simp [ucdWalk, hdg] at h
              | int i => simp [ucdWalk, hdg] at h
              | float q => simp [ucdWalk, hdg] at h
              | str s => simp [ucdWalk, hdg] at h
              | list l => simp [ucdWalk, hdg] at h
      | cons d2 rest2 =>
          intro rp m sub hrp hm h
          have hrpd : base.isPrefixOf (rp ++ [d]) = true :=
            isPrefixOf_append_right base rp [d] hrp
          cases hdg : dget m d with
          | none =>
              cases hrec : ucdWalk module exr (rp ++ [d]) (d2 :: rest2) [] with
              | none => simp [ucdWalk, hdg, hrec] at h
              | some sub2 =>
                  simp only [ucdWalk, hdg, hrec, Option.some.injEq] at h
                  rw [← h]
                  have hsub2 : ∀ kv ∈ sub2, GoodEntry base kv :=
                    ih (rp ++ [d]) [] sub2 hrpd (by intro kv hmm; cases hmm) hrec
                  refine goodEntry_dset base m d _ hm ?_ (fun _ => pathStrOk_dict base _)
                  rw [allGood_dict_iff]
                  intro kv hmm
                  simp only [List.mem_cons, List.mem_singleton] at hmm
                  rcases hmm with h2 | h2 | h2 | h2
                  · subst h2
                    exact ⟨fun _ => pathStrOk_within base _ hrpd, allGood_str base _⟩
                  · subst h2
                    exact ⟨fun hk => absurd hk (by simp),
                      (allGood_dict_iff base sub2).mpr hsub2⟩
                  · subst h2
                    refine ⟨fun hk => absurd hk (by simp), ?_⟩
                    rw [allGood_list_iff]
                    intro v hv
                    cases hv
                  · cases h2
          | some v =>
              cases v with
              | dict nd =>
                  have hnd : ∀ kv ∈ nd, GoodEntry base kv :=
                    (allGood_dict_iff base nd).mp (hm (d, .dict nd) (dget_mem m d _ hdg)).2
                  have hnd1 := goodEntry_fixNodePath base (rp ++ [d]) nd hrpd hnd
                  have hdirs : ∀ kv ∈ dictOf (dictOrEmpty
                      (dget (fixNodePath (rp ++ [d]) nd) "dirs")), GoodEntry base kv := by
                    cases hdg2 : dget (fixNodePath (rp ++ [d]) nd) "dirs" with
                    | none => intro kv hmm; simp [dictOrEmpty, dictOf] at hmm
                    | some w =>
                        exact allGood_dictOrEmpty base w
                          (hnd1 ("dirs", w) (dget_mem _ _ _ hdg2)).2
                  cases hrec : ucdWalk module exr (rp ++ [d]) (d2 :: rest2)
                      (dictOf (dictOrEmpty (dget (fixNodePath (rp ++ [d]) nd) "dirs"))) with
                  | none => simp [ucdWalk, hdg, hrec] at h
                  | some sub2 =>
                      simp only [ucdWalk, hdg, hrec, Option.some.injEq] at h
                      rw [← h]
                      have hsub2 := ih (rp ++ [d]) _ sub2 hrpd hdirs hrec
                      refine goodEntry_dset base m d _ hm ?_ (fun _ => pathStrOk_dict base _)
                      rw [allGood_dict_iff]
                      exact goodEntry_dset base (fixNodePath (rp ++ [d]) nd) "dirs"
                        (.dict sub2) hnd1 ((allGood_dict_iff base sub2).mpr hsub2)
                        (fun hk => absurd hk (by simp))
              | none => simp [ucdWalk, hdg] at h
              | bool b => simp [ucdWalk, hdg] at h
              | int i => simp [ucdWalk, hdg] at h
              | float q => simp [ucdWalk, hdg] at h
              | str s => simp [ucdWalk, hdg] at h
              | list l => simp [ucdWalk, hdg] at h

theorem update_code_directory_good (base : PathA) (exf : PathA → Bool)
    (ext : String → ExtractRes) (p : PathA) (cd cd' : List (String × PyVal))
    (content : String)
    (h : update_code_directory exf ext p base cd content = some cd')
    (hcd : ∀ kv ∈ cd, GoodEntry base kv) :
    ∀ kv ∈ cd', GoodEntry base kv := by
  unfold update_code_directory at h
  by_cases hex : exf p
  · rw [if_pos hex] at h
    cases hrel : safeRelpath p base with
    | none =>
        simp only [hrel, Option.some.injEq] at h
        rw [← h]
        exact hcd
    | some rel =>
        simp only [hrel] at h
        by_cases hde : (if rel.isEmpty then ["."] else rel).dropLast.isEmpty
        · rw [if_pos hde] at h
          simp only [Option.some.injEq] at h
          rw [← h]
          have hfiles : ∀ f ∈ listOf (listOrEmpty (dget cd "files")), AllGood base f := by
            cases hdg : dget cd "files" with
            | none => intro f hmm; simp [listOrEmpty, listOf] at hmm
            | some v =>
                exact allGood_listOrEmpty base v
                  (hcd ("files", v) (dget_mem cd "files" v hdg)).2
          refine goodEntry_dset base cd "files" _ hcd ?_ (fun hk => absurd hk (by simp))
          rw [allGood_list_iff]
          exact allGood_updateFilesList base _ _ _
            (isPrefixOf_append_right base base _ (isPrefixOf_self base)) _ hfiles
        · rw [if_neg hde] at h
          have hdirs : ∀ kv ∈ dictOf (dictOrEmpty (dget cd "dirs")),
              GoodEntry base kv := by
            cases hdg : dget cd "dirs" with
            | none => intro kv hmm; simp [dictOrEmpty, dictOf] at hmm
            | some w =>
                exact allGood_dictOrEmpty base w
                  (hcd ("dirs", w) (dget_mem cd "dirs" w hdg)).2
          split at h
          · rename_i sub hrec
            simp only [Option.some.injEq] at h
            rw [← h]
            have hsub := ucdWalk_good base _ _ _ base _ sub
              (isPrefixOf_self base) hdirs hrec
            exact goodEntry_dset base cd "dirs" (.dict sub) hcd
              ((allGood_dict_iff base sub).mpr hsub) (fun hk => absurd hk (by simp))
          · cases h
  · rw [if_neg hex] at h
    simp only [Option.some.injEq] at h
    rw [← h]
    exact hcd

theorem update_code_directory_escape (exf : PathA → Bool)
    (ext : String → ExtractRes) (p base : PathA)
    (cd : List (String × PyVal)) (content : String)
    (h : isWithinBase p base = false) :
    update_code_directory exf ext p base cd content = some cd := by
  unfold update_code_directory
  by_cases hex : exf p
  · rw [if_pos hex]
    simp [safeRelpath, h]
  · rw [if_neg hex]

/-- **C4**.  Path confinement holds: (1) the file-update loop body never
changes any path outside the model base; (2) an edit whose resolved path
escapes the base produces no file write; (3) the directory-structure
loop body leaves the index unchanged and raises no error on such an
edit; (4) `update_code_directory` is the identity on escaping paths; and
(5) it preserves the invariant that every recorded `"path"` string lies
within the base, so every index entry it creates is a descendant of the
base. -/
theorem c4_path_confinement :
    (∀ (base cwd : PathA) (fs : FileFS) (edit : PyVal) (q : PathA),
       isWithinBase q base = false →
       flookup (applyEdit base cwd fs edit) q = flookup fs q) ∧
    (∀ (base cwd : PathA) (fs : FileFS) (ed : List (String × PyVal)) (pstr : String),
       dget ed "path" = some (.str pstr) →
       isWithinBase (resolveStr cwd (pyStrip pstr)) base = false →
       applyEdit base cwd fs (.dict ed) = fs) ∧
    (∀ (exf : PathA → Bool) (ext : String → ExtractRes) (base cwd : PathA)
       (cd ed : List (String × PyVal)) (pstr : String),
       dget ed "path" = some (.str pstr) →
       isWithinBase (resolveStr cwd (pyStrip pstr)) base = false →
       dirStructEditStep exf ext base cwd cd (.dict ed) = some cd) ∧
    (∀ (exf : PathA → Bool) (ext : String → ExtractRes) (p base : PathA)
       (cd : List (String × PyVal)) (content : String),
       isWithinBase p base = false →
       update_code_directory exf ext p base cd content = some cd) ∧
    (∀ (exf : PathA → Bool) (ext : String → ExtractRes) (p base : PathA)
       (cd cd' : List (String × PyVal)) (content : String),
       update_code_directory exf ext p base cd content = some cd' →
       (∀ kv ∈ cd, GoodEntry base kv) →
       ∀ kv ∈ cd', GoodEntry base kv) := by
  refine ⟨?_, ?_, ?_, ?_, ?_⟩
  · intro base cwd fs edit q hq
    cases edit with
    | dict ed =>
        simp only [applyEdit]
        by_cases h0 : (match dget ed "path" with
            | some (.str s) => pyStrip s
            | _ => "") = ""
        · rw [if_pos h0]
        · rw [if_neg h0]
          by_cases h1 : isWithinBase (resolveStr cwd (match dget ed "path" with
              | some (.str s) => pyStrip s
              | _ => "")) base = true
          · rw [if_pos h1]
            by_cases h2 : (match dget ed "content" with
                | some (.str s) => pyStrip s
                | _ => "") = ""
            · rw [if_pos h2]
            · rw [if_neg h2]
              apply flookup_fwrite_ne
              intro he
              rw [he] at h1
              rw [h1] at hq
              exact absurd hq (by decide)
          · rw [if_neg h1]
    | none => rfl
    | bool b => rfl
    | int i => rfl
    | float x => rfl
    | str s => rfl
    | list l => rfl
  · intro base cwd fs ed pstr hp hw
    simp only [applyEdit, hp]
    by_cases h0 : pyStrip pstr = ""
    · rw [if_pos h0]
    · rw [if_neg h0,
        if_neg (show ¬(isWithinBase (resolveStr cwd (pyStrip pstr)) base = true) by
          simp [hw])]
  · intro exf ext base cwd cd ed pstr hp hw
    simp only [dirStructEditStep, hp]
    by_cases h0 : pyStrip pstr = ""
    · rw [if_pos h0]
    · rw [if_neg h0,
        if_neg (show ¬(isWithinBase (resolveStr cwd (pyStrip pstr)) base = true) by
          simp [hw])]
  · intro exf ext p base cd content hw
    exact update_code_directory_escape exf ext p base cd content hw
  · intro exf ext p base cd cd' content h hcd
    exact update_code_directory_good base exf ext p cd cd' content h hcd

/-- Witness for C4 at concrete inputs: an escaping edit `/e` against base
`/b`, and the invariant clause at the empty index. -/
theorem c4_path_confinement_witness :
    (isWithinBase ["x"] ["b"] = false ∧
      flookup (applyEdit ["b"] [] [] PyVal.none) ["x"] = flookup [] ["x"]) ∧
    (dget [("path", PyVal.str "/e")] "path" = some (.str "/e") ∧
      isWithinBase (resolveStr [] (pyStrip "/e")) ["b"] = false ∧
      applyEdit ["b"] [] [] (.dict [("path", .str "/e")]) = [] ∧
      dirStructEditStep (fun _ => true) (fun _ => ([], [], [])) ["b"] []
        [] (.dict [("path", .str "/e")]) = some []) ∧
    (isWithinBase ["e"] ["b"] = false ∧
      update_code_directory (fun _ => true) (fun _ => ([], [], [])) ["e"] ["b"]
        [] "c" = some []) ∧
    (∀ kv ∈ ([] : List (String × PyVal)), GoodEntry ["b"] kv) :=
  ⟨⟨by decide, c4_path_confinement.1 ["b"] [] [] PyVal.none ["x"] (by decide)⟩,
   ⟨rfl, by decide,
    c4_path_confinement.2.1 ["b"] [] [] [("path", PyVal.str "/e")] "/e" rfl (by decide),
    c4_path_confinement.2.2.1 (fun _ => true) (fun _ => ([], [], [])) ["b"] []
      [] [("path", PyVal.str "/e")] "/e" rfl (by decide)⟩,
   ⟨by decide,
    c4_path_confinement.2.2.2.1 (fun _ => true) (fun _ => ([], [], [])) ["e"] ["b"]
      [] "c" (by decide)⟩,
   c4_path_confinement.2.2.2.2 (fun _ => true) (fun _ => ([], [], [])) ["e"] ["b"]
     [] [] "c" (by decide) (by intro kv hm; cases hm)⟩

/-! ## C8: lenient JSON extraction (utils.py `load_output`, lines 24-93).
`json.loads` is embedded as a strict JSON recursive-descent parser
(`jsonLoads`); `str.splitlines` is modelled for the `\n`, `\r\n` and
`\r` line breaks. -/

def jsonWs (c : Char) : Bool := c = ' ' || c = '\t' || c = '\n' || c = '\r'

def skipWs : List Char → List Char
  | [] => []
  | c :: t => if jsonWs c then skipWs t else c :: t

def splitLinesAux (acc : List Char) : List Char → List (List Char)
  | [] => if acc.isEmpty then [] else [acc.reverse]
  | '\r' :: '\n' :: t => acc.reverse :: splitLinesAux [] t
  | '\r' :: t => acc.reverse :: splitLinesAux [] t
  | '\n' :: t => acc.reverse :: splitLinesAux [] t
  | c :: t => splitLinesAux (c :: acc) t

def splitLinesCs (cs : List Char) : List (List Char) := splitLinesAux [] cs

def joinNl : List (List Char) → List Char
  | [] => []
  | [x] => x
  | x :: y :: t => x ++ '\n' :: joinNl (y :: t)

def findBrace : List Char → Option (List Char)
  | [] => Option.none
  | c :: t => if c = '{' then some (c :: t) else findBrace t

def hexVal (c : Char) : Option ℕ :=
  if '0' ≤ c ∧ c ≤ '9' then some (c.toNat - '0'.toNat)
  else if 'a' ≤ c ∧ c ≤ 'f' then some (c.toNat - 'a'.toNat + 10)
  else if 'A' ≤ c ∧ c ≤ 'F' then some (c.toNat - 'A'.toNat + 10)
  else Option.none

/-- JSON string body after the opening quote; escapes per RFC 8259
(`\uXXXX` as one code point; unescaped control characters rejected). -/
def parseStrAux : List Char → List Char → Option (List Char × List Char)
  | [], _ => Option.none
  | '"' :: t, acc => some (acc.reverse, t)
  | '\\' :: e :: t, acc =>
      if e = '"' then parseStrAux t ('"' :: acc)
      else if e = '\\' then parseStrAux t ('\\' :: acc)
      else if e = '/' then parseStrAux t ('/' :: acc)
      else if e = 'b' then parseStrAux t (Char.ofNat 8 :: acc)
      else if e = 'f' then parseStrAux t (Char.ofNat 12 :: acc)
      else if e = 'n' then parseStrAux t ('\n' :: acc)
      else if e = 'r' then parseStrAux t ('\r' :: acc)
      else if e = 't' then parseStrAux t ('\t' :: acc)
      else if e = 'u' then
        match t with
        | h1 :: h2 :: h3 :: h4 :: t2 =>
            match hexVal h1, hexVal h2, hexVal h3, hexVal h4 with
            | some a, some b, some c, some d =>
                parseStrAux t2 (Char.ofNat (((a * 16 + b) * 16 + c) * 16 + d) :: acc)
            | _, _, _, _ => Option.none
        | _ => Option.none
      else Option.none
  | ['\\'], _ => Option.none
  | c :: t, acc => if c.toNat < 32 then Option.none else parseStrAux t (c :: acc)

def digitSpan : List Char → List Char × List Char
  | [] => ([], [])
  | c :: t =>
      if c.isDigit then
        let r := digitSpan t
        (c :: r.1, r.2)
      else ([], c :: t)

def digitsToNat (cs : List Char) : ℕ :=
  cs.foldl (fun a c => a * 10 + (c.toNat - '0'.toNat)) 0

/-- JSON number: optional minus, integer part without leading zeros,
optional fraction and exponent; ints stay exact, anything with a
fraction or exponent becomes a float. -/
def parseNum (cs : List Char) : Option (PyVal × List Char) :=
  let (neg, cs1) :=
    match cs with
    | '-' :: t => (true, t)
    | t => (false, t)
  let (ip, cs2) := digitSpan cs1
  if ip = [] then Option.none
  else if ip.length ≥ 2 ∧ ip.headD '0' = '0' then Option.none
  else
    let (hasFrac, fp, cs3) :=
      match cs2 with
      | '.' :: t =>
          let r := digitSpan t
          (true, r.1, r.2)
      | t => (false, [], t)
    if hasFrac ∧ fp = [] then Option.none
    else
      let (hasExp, eneg, ep, cs4) :=
        match cs3 with
        | 'e' :: '+' :: t => (true, false, (digitSpan t).1, (digitSpan t).2)
        | 'E' :: '+' :: t => (true, false, (digitSpan t).1, (digitSpan t).2)
        | 'e' :: '-' :: t => (true, true, (digitSpan t).1, (digitSpan t).2)
        | 'E' :: '-' :: t => (true, true, (digitSpan t).1, (digitSpan t).2)
        | 'e' :: t => (true, false, (digitSpan t).1, (digitSpan t).2)
        | 'E' :: t => (true, false, (digitSpan t).1, (digitSpan t).2)
        | t => (false, false, [], t)
      if hasExp ∧ ep = [] then Option.none
      else
        let mant : ℚ := (digitsToNat ip : ℚ) + (digitsToNat fp : ℚ) / ((10 : ℚ) ^ fp.length)
        let scaled : ℚ :=
          if eneg then mant / ((10 : ℚ) ^ digitsToNat ep)
          else mant * ((10 : ℚ) ^ digitsToNat ep)
        let signed : ℚ := if neg then -scaled else scaled
        if hasFrac ∨ hasExp then some (.float signed, cs4)
        else some (.int (if neg then -(digitsToNat ip : ℤ) else (digitsToNat ip : ℤ)), cs4)

mutual

def parseJson : ℕ → List Char → Option (PyVal × List Char)
  | 0, _ => Option.none
  | fuel + 1, cs =>
      match skipWs cs with
      | 't' :: 'r' :: 'u' :: 'e' :: t => some (.bool true, t)
      | 'f' :: 'a' :: 'l' :: 's' :: 'e' :: t => some (.bool false, t)
      | 'n' :: 'u' :: 'l' :: 'l' :: t => some (.none, t)
      | '"' :: t =>
          match parseStrAux t [] with
          | some (b, t2) => some (.str (String.mk b), t2)
          | Option.none => Option.none
      | '{' :: t =>
          match skipWs t with
          | '}' :: t2 => some (.dict [], t2)
          | t2 =>
              match parseObjRest fuel [] t2 with
              | some (l, t3) => some (.dict l, t3)
              | Option.none => Option.none
      | '[' :: t =>
          match skipWs t with
          | ']' :: t2 => some (.list [], t2)
          | t2 =>
              match parseArrRest fuel [] t2 with
              | some (l, t3) => some (.list l, t3)
              | Option.none => Option.none
      | cs2 => parseNum cs2

def parseObjRest : ℕ → List (String × PyVal) → List Char →
    Option (List (String × PyVal) × List Char)
  | 0, _, _ => Option.none
  | fuel + 1, acc, cs =>
      match cs with
      | '"' :: t =>
          match parseStrAux t [] with
          | some (k, t2) =>
              match skipWs t2 with
              | ':' :: t3 =>
                  match parseJson fuel t3 with
                  | some (v, t4) =>
                      let acc2 := dset acc (String.mk k) v
                      match skipWs t4 with
                      | ',' :: t5 => parseObjRest fuel acc2 (skipWs t5)
                      | '}' :: t5 => some (acc2, t5)
                      | _ => Option.none
                  | Option.none => Option.none
              | _ => Option.none
          | Option.none => Option.none
      | _ => Option.none

def parseArrRest : ℕ → List PyVal → List Char → Option (List PyVal × List Char)
  | 0, _, _ => Option.none
  | fuel + 1, acc, cs =>
      match parseJson fuel cs with
      | some (v, t) =>
          match skipWs t with
          | ',' :: t2 => parseArrRest fuel (acc ++ [v]) t2
          | ']' :: t2 => some (acc ++ [v], t2)
          | _ => Option.none
      | Option.none => Option.none

end

/-- `json.loads`: parse one value and require only whitespace after. -/
def jsonLoads (s : String) : Option PyVal :=
  match parseJson (s.length + 1) s.data with
  | some (v, rest) => if skipWs rest = [] then some v else Option.none
  | Option.none => Option.none

/-- The string-aware balanced-brace scanner of `load_output` (utils.py
lines 54-93).  State: remaining characters, brace depth, in-string and
escape flags, and the candidate slice accumulated (reversed) since the
last depth-0 `{` — `none` mirrors `obj_start is None`. -/
def scanLoop : List Char → ℤ → Bool → Bool → Option (List Char) → Option PyVal
  | [], _, _, _, _ => Option.none
  | c :: t, depth, inStr, esc, cur =>
      let cur1 := cur.map (fun a => c :: a)
      if inStr then
        if esc then scanLoop t depth true false cur1
        else if c = '\\' then scanLoop t depth true true cur1
        else if c = '"' then scanLoop t depth false false cur1
        else scanLoop t depth true false cur1
      else if c = '"' then scanLoop t depth true false cur1
      else if c = '{' then
        if depth = 0 then scanLoop t (depth + 1) false false (some [c])
        else scanLoop t (depth + 1) false false cur1
      else if c = '}' then
        if depth - 1 = 0 then
          match cur1 with
          | some acc =>
              match jsonLoads (String.mk acc.reverse) with
              | some (.dict l) => some (.dict l)
              | some _ => scanLoop t (depth - 1) false false cur1
              | Option.none => scanLoop t (depth - 1) false false Option.none
          | Option.none => scanLoop t (depth - 1) false false Option.none
        else scanLoop t (depth - 1) false false cur1
      else scanLoop t depth false false cur1

/-- The fenced body: drop the opening fence line, drop a closing fence
line, re-join and strip (utils.py lines 39-42). -/
def fenceBody (s : String) : String :=
  let lines := (splitLinesCs s.data).drop 1
  let lines2 :=
    if lines ≠ [] ∧ pyStartsWith (pyStrip (String.mk (lines.getLastD []))) "```"
    then lines.dropLast else lines
  pyStrip (String.mk (joinNl lines2))

/-- `load_output` (utils.py lines 24-93): raw parse, then fence strip,
then the balanced-brace scan from the FIRST `{`. -/
def load_output (output : PyVal) : Option PyVal :=
  match output with
  | .str s0 =>
      let s := pyStrip s0
      match jsonLoads s with
      | some (.dict l) => some (.dict l)
      | _ =>
          let fenceRes :=
            if pyStartsWith s "```" then
              match jsonLoads (fenceBody s) with
              | some (.dict l) => some (.dict l)
              | _ => Option.none
            else Option.none
          match fenceRes with
          | some v => some v
          | Option.none =>
              match findBrace s.data with
              | some cs => scanLoop cs 0 false false Option.none
              | Option.none => Option.none
  | _ => Option.none

theorem findBrace_eq_none (cs : List Char) (h : '{' ∉ cs) :
    findBrace cs = Option.none := by
  induction cs with
  | nil => rfl
  | cons c t ih =>
      have hc : ¬(c = '{') := fun he => h (he ▸ List.mem_cons_self _ _)
      simp only [findBrace, if_neg hc]
      exact ih (fun hm => h (List.mem_cons_of_mem _ hm))

/-- **C8** (counterexample).  A stray `\x7b` in the prose before the JSON
object defeats the scanner: the suffix is a perfectly valid JSON object,
yet the parser returns no object, because the scan balances braces from
the FIRST `\x7b` of the string, not from the object. -/
theorem c8_stray_brace_defeats_extraction :
    jsonLoads "\x7b\"a\":1\x7d" = some (.dict [("a", PyVal.int 1)]) ∧
    load_output (.str "ok \x7b \x7b\"a\":1\x7d") = Option.none :=
  ⟨rfl, rfl⟩

/-- **C8** (amended).  (1) A raw JSON object (after stripping) is
returned; (2) when the raw parse fails and the text is fenced, the
object parsed from the fence body is returned; (3) when the raw parse
fails, the text is not fenced and contains no `\x7b` at all, the result
is `none`; (4) an object embedded after prose IS recovered when the
prose contains no interfering brace or quote (concrete instance).  The
general clause (c) of the claim fails (see the counterexample). -/
theorem c8_extraction_amended :
    (∀ (s : String) (l : List (String × PyVal)),
       jsonLoads (pyStrip s) = some (.dict l) →
       load_output (.str s) = some (.dict l)) ∧
    (∀ (s : String) (l : List (String × PyVal)),
       jsonLoads (pyStrip s) = Option.none →
       pyStartsWith (pyStrip s) "```" = true →
       jsonLoads (fenceBody (pyStrip s)) = some (.dict l) →
       load_output (.str s) = some (.dict l)) ∧
    (∀ s : String,
       jsonLoads (pyStrip s) = Option.none →
       pyStartsWith (pyStrip s) "```" = false →
       '{' ∉ (pyStrip s).data →
       load_output (.str s) = Option.none) ∧
    load_output (.str "The answer: \x7b\"a\": 1\x7d.") =
      some (.dict [("a", PyVal.int 1)]) := by
  refine ⟨?_, ?_, ?_, rfl⟩
  · intro s l h
    simp only [load_output, h]
  · intro s l h1 h2 h3
    simp only [load_output, h1, h2, h3, if_true]
  · intro s h1 h2 h3
    simp only [load_output, h1, h2, findBrace_eq_none _ h3, Bool.false_eq_true,
      if_false]

/-- Witness for C8 (amended) at concrete provider outputs. -/
theorem c8_extraction_amended_witness :
    jsonLoads (pyStrip "\x7b\"a\":1\x7d") = some (.dict [("a", PyVal.int 1)]) ∧
    load_output (.str "\x7b\"a\":1\x7d") = some (.dict [("a", PyVal.int 1)]) ∧
    load_output (.str "```json\n\x7b\"a\": 1\x7d\n```") =
      some (.dict [("a", PyVal.int 1)]) ∧
    load_output (.str "plain text") = Option.none :=
  ⟨rfl,
   c8_extraction_amended.1 "\x7b\"a\":1\x7d" [("a", PyVal.int 1)] rfl,
   c8_extraction_amended.2.1 "```json\n\x7b\"a\": 1\x7d\n```" [("a", PyVal.int 1)]
     rfl rfl rfl,
   c8_extraction_amended.2.2.1 "plain text" rfl rfl (by decide)⟩
